import Mathlib

/-!
Shallow embedding of the webmesh control-plane core: the networking policy
filter (`FilterGraph`, `GetRoutesByNode`, `GetRoutesByCIDR` from
`pkg/meshdb/networking/networking.go`), the WireGuard peer reconciler
(`walkMeshDescendants`, `RefreshWireguardPeers`), the leader-side join
handler (`Join` from `pkg/services/node/server_join.go`) and the client-side
join retry loop.  Go maps are modelled as association lists, fallible Go
calls as `Except`, and external collaborators (the policy predicates, the
netip / wgtypes parsers, the peer registry and IPAM) as explicit parameters
or spec-modelled functions.
-/

deriving instance DecidableEq for Except

namespace Networking

/-- A mesh node as seen by the networking filter (`peergraph.MeshNode`):
only the fields read by `FilterGraph` are carried. -/
structure MeshNode where
  id : String
  privateIpv4 : String
  privateIpv6 : String
deriving DecidableEq, Repr

/-- A directed admission edge (`peergraph.Edge`); the filter only moves
edges around, so only the endpoints are modelled. -/
structure Edge where
  source : String
  target : String
deriving DecidableEq, Repr

/-- One row of an adjacency map: Go `map[string]graph.Edge` as an
association list. -/
abbrev Row := List (String × Edge)

/-- `peergraph.AdjacencyMap`: Go `map[string]map[string]graph.Edge`. -/
abbrev AdjacencyMap := List (String × Row)

/-- A network route record (`v1.Route`): the advertising node and its
destination CIDRs, exactly the fields read by the filter. -/
structure Route where
  name : String
  node : String
  destinationCidrs : List String
deriving DecidableEq, Repr

/-- A concrete `v1.NetworkAction` tuple handed to the ACL `Accept`
predicate by `FilterGraph`. -/
structure NetworkAction where
  srcNode : String
  srcCidr : String
  dstNode : String
  dstCidr : String
deriving DecidableEq, Repr

/-- Result of `netip.ParsePrefix` as used by the filter: the only method
called on the parsed value is `Addr().Is4()`. -/
structure ParsedCidr where
  is4 : Bool
deriving DecidableEq, Repr

/-- Look up a key in an adjacency map (Go two-result map read). -/
def lookupRow? (m : AdjacencyMap) (k : String) : Option Row :=
  (m.find? (fun kv => kv.1 = k)).map (fun kv => kv.2)

/-- Look up a key in an adjacency map, Go single-result read (zero value
`nil` map for a missing key, modelled as the empty row). -/
def lookupRow (m : AdjacencyMap) (k : String) : Row :=
  (lookupRow? m k).getD []

/-- Go `delete(row, k)` on a row. -/
def eraseKey (row : Row) (k : String) : Row :=
  row.filter (fun kv => kv.1 ≠ k)

/-- Whether a row has an entry for `k` (Go `_, ok := row[k]`). -/
def rowHasKey (row : Row) (k : String) : Bool :=
  row.any (fun kv => kv.1 = k)

/-- Whether an adjacency map has a row for `k`. -/
def mapHasKey (m : AdjacencyMap) (k : String) : Bool :=
  m.any (fun kv => kv.1 = k)

/-- Go `m[k] = r` on an adjacency map: replace the row in place if the key
exists, otherwise add it. -/
def setRow (m : AdjacencyMap) (k : String) (r : Row) : AdjacencyMap :=
  if mapHasKey m k then
    m.map (fun kv => if kv.1 = k then (k, r) else kv)
  else
    m ++ [(k, r)]

/-- Apply `f` to the row stored at `k`, leaving other rows alone
(Go mutation of the map value at an existing key). -/
def updateRow (m : AdjacencyMap) (k : String) (f : Row → Row) : AdjacencyMap :=
  m.map (fun kv => if kv.1 = k then (kv.1, f kv.2) else kv)

/-- `GetRoutesByNode` from `networking.go`: the routes whose `Node` field
equals the given node name, in listing order. -/
def GetRoutesByNode (routes : List Route) (nodeName : String) : List Route :=
  routes.filter (fun r => r.node = nodeName)

/-- Go `strings.HasPrefix(s, pre)`: `s` starts with the characters of
`pre`. -/
def goHasPrefix (s pre : String) : Bool :=
  pre.data.isPrefixOf s.data

/-- `GetRoutesByCIDR` from `networking.go`: a route is kept when at least
one of its destination CIDRs has the argument as a *string* prefix
(`strings.HasPrefix(destination, cidr)`); the inner loop breaks at the
first match. -/
def GetRoutesByCIDR (routes : List Route) (cidr : String) : List Route :=
  match routes with
  | [] => []
  | r :: rest =>
    if r.destinationCidrs.any (fun destination => goHasPrefix destination cidr) then
      r :: GetRoutesByCIDR rest cidr
    else
      GetRoutesByCIDR rest cidr

/-- Everything `FilterGraph` consumes, bundled.  `resolve` is
`resolver.Get` (the peer registry lookup, `None` meaning the Go error
path), `aclNames` stands for the stored ACL list (only its length is
inspected by `FilterGraph` itself), `expandOk` is whether `acls.Expand`
succeeds, `allow` and `accept` are the Policy Engine predicates
`AllowNodesToCommunicate` and `Accept` (implemented outside this
excerpt, so passed as opaque black boxes exactly as the Go code calls
them), `fullMap` is the adjacency map built from `resolver.Graph()`,
`routes` is the stored route list, and `parseCidr` is
`netip.ParsePrefix`. -/
structure FilterEnv where
  resolve : String → Option MeshNode
  aclNames : List String
  expandOk : Bool
  allow : MeshNode → MeshNode → Bool
  accept : NetworkAction → Bool
  fullMap : AdjacencyMap
  routes : List Route
  parseCidr : String → Option ParsedCidr

/-- The `v1.NetworkAction` that `FilterGraph` builds for one destination
CIDR of a route: the source CIDR is the observer's private IPv4 when the
parsed destination is an IPv4 prefix, otherwise its private IPv6. -/
def routeAction (thisNode : MeshNode) (dstNode cidr : String) (p : ParsedCidr) :
    NetworkAction :=
  if p.is4 then
    { srcNode := thisNode.id, srcCidr := thisNode.privateIpv4
      dstNode := dstNode, dstCidr := cidr }
  else
    { srcNode := thisNode.id, srcCidr := thisNode.privateIpv6
      dstNode := dstNode, dstCidr := cidr }

/-- Inner loop of the route check: parse each destination CIDR (a parse
failure aborts `FilterGraph` with an error) and test it against `Accept`;
the first rejected CIDR short-circuits with `false` (Go `continue Nodes`
/ `continue Peers`). -/
def cidrsAllowed (env : FilterEnv) (thisNode : MeshNode) (dstNode : String) :
    List String → Except String Bool
  | [] => .ok true
  | c :: rest =>
    match env.parseCidr c with
    | none => .error "parse prefix"
    | some p =>
      if env.accept (routeAction thisNode dstNode c p) then
        cidrsAllowed env thisNode dstNode rest
      else
        .ok false

/-- Route check over all routes advertised by `dstNode`: `false` as soon
as any destination CIDR of any route is rejected. -/
def routesAllowed (env : FilterEnv) (thisNode : MeshNode) (dstNode : String) :
    List Route → Except String Bool
  | [] => .ok true
  | r :: rest => do
    let ok ← cidrsAllowed env thisNode dstNode r.destinationCidrs
    if ok then routesAllowed env thisNode dstNode rest else pure false

/-- State of the first `FilterGraph` pass.  In the Go code
`filtered[thisNode.Id] = fullMap[thisNode.Id]` stores the *same map
object* in both maps, so a `delete` through `filtered` also mutates the
full map's observer row.  `obsRow` tracks that shared object (the row
living in the full map), and `aliased` records whether `filtered`'s
observer entry still points at it (a later
`filtered[node.GetId()] = make(...)` with `node.GetId()` equal to the
observer id would replace it with a fresh empty map). -/
structure Pass1State where
  filtered : AdjacencyMap
  obsRow : Row
  aliased : Bool
deriving DecidableEq, Repr

/-- Go `delete(filtered[thisNode.Id], nid)`: erase `nid` from the row
`filtered` holds for the observer; while that row is still the shared
object, the full map's copy `obsRow` changes with it. -/
def eraseObs (st : Pass1State) (obsId nid : String) : Pass1State :=
  { filtered := updateRow st.filtered obsId (fun r => eraseKey r nid)
    obsRow := if st.aliased then eraseKey st.obsRow nid else st.obsRow
    aliased := st.aliased }

/-- Go `filtered[node.GetId()] = make(map[string]graph.Edge)`: give the
node a fresh empty row; if that key is the observer's, the aliasing with
the full map's row is broken. -/
def assignEmpty (st : Pass1State) (obsId nid : String) : Pass1State :=
  { filtered := setRow st.filtered nid []
    obsRow := st.obsRow
    aliased := st.aliased && nid ≠ obsId }

/-- First pass of `FilterGraph` over the keys of the full adjacency map:
skip the observer; resolve each node (a registry miss aborts with an
error); a node failing `AllowNodesToCommunicate`, or advertising any
rejected route CIDR, is deleted from the observer's row; surviving nodes
get an empty row of their own. -/
def pass1 (env : FilterEnv) (thisNode : MeshNode) :
    List String → Pass1State → Except String Pass1State
  | [], st => .ok st
  | k :: rest, st =>
    if k = thisNode.id then pass1 env thisNode rest st
    else
      match env.resolve k with
      | none => .error "get node"
      | some node =>
        if env.allow thisNode node then do
          let ok ← routesAllowed env thisNode node.id
            (GetRoutesByNode env.routes node.id)
          if ok then
            pass1 env thisNode rest (assignEmpty st thisNode.id node.id)
          else
            pass1 env thisNode rest (eraseObs st thisNode.id node.id)
        else
          pass1 env thisNode rest (eraseObs st thisNode.id node.id)

/-- Second-pass check of a single peer entry: the observer itself is
always kept, every other peer must be resolvable, pass
`AllowNodesToCommunicate`, and have all of its advertised route CIDRs
accepted (the second pass keys the routes and the action by the raw
`peerID`). -/
def peerAllowed (env : FilterEnv) (thisNode : MeshNode) (p : String) :
    Except String Bool :=
  match env.resolve p with
  | none => .error "get peer"
  | some peer =>
    if env.allow thisNode peer then
      routesAllowed env thisNode p (GetRoutesByNode env.routes p)
    else
      .ok false

/-- Second pass over one row of the full map: keep, in order, the
observer entry and every peer entry whose checks pass. -/
def pass2Row (env : FilterEnv) (thisNode : MeshNode) :
    List (String × Edge) → Except String Row
  | [] => .ok []
  | (p, e) :: rest =>
    if p = thisNode.id then do
      let kept ← pass2Row env thisNode rest
      .ok ((p, e) :: kept)
    else do
      let ok ← peerAllowed env thisNode p
      let kept ← pass2Row env thisNode rest
      if ok then .ok ((p, e) :: kept) else .ok kept

/-- Second pass of `FilterGraph` over the retained rows.  `fullMap'` is
the full map as mutated through the aliased observer row.  A retained
key missing from the full map keeps its row unchanged (Go `continue`).
When the observer row in `filtered` is still the shared object, the
pass-2 insertions into it re-add entries it already holds, so its final
value is the pass-1 row itself; the checks still run because their
errors abort the whole call. -/
def pass2 (env : FilterEnv) (thisNode : MeshNode) (fullMapM : AdjacencyMap)
    (aliased : Bool) : AdjacencyMap → Except String AdjacencyMap
  | [] => .ok []
  | (k, row) :: rest =>
    match lookupRow? fullMapM k with
    | none => do
      let tail ← pass2 env thisNode fullMapM aliased rest
      .ok ((k, row) :: tail)
    | some edges => do
      let kept ← pass2Row env thisNode edges
      let tail ← pass2 env thisNode fullMapM aliased rest
      .ok ((k, if aliased && k = thisNode.id then row else kept) :: tail)

/-- `FilterGraph` from `networking.go`: resolve the observer, return the
nil (empty) map when the stored ACL list is empty, expand the ACLs, seed
the filtered map with the observer's (aliased) full-map row, run the two
filtering passes described above. -/
def FilterGraph (env : FilterEnv) (thisNodeID : String) :
    Except String AdjacencyMap :=
  match env.resolve thisNodeID with
  | none => .error "get node"
  | some thisNode =>
    if env.aclNames.length = 0 then .ok []
    else if env.expandOk then
      let initRow := lookupRow env.fullMap thisNode.id
      let st0 : Pass1State := ⟨[(thisNode.id, initRow)], initRow, true⟩
      do
        let st ← pass1 env thisNode (env.fullMap.map (fun kv => kv.1)) st0
        let fullMapM :=
          if mapHasKey env.fullMap thisNode.id then
            setRow env.fullMap thisNode.id st.obsRow
          else env.fullMap
        pass2 env thisNode fullMapM st.aliased st.filtered
    else .error "expand network acls"

end Networking

namespace MeshStore

/-- A vertex of the mesh DAG as read by `walkMeshDescendants`
(`meshgraph` vertex): Go's invalid zero `netip.Prefix` is `none`, so
`IsValid()` is `Option.isSome`. -/
structure MeshVertex where
  id : String
  publicKey : String
  publicEndpoint : String
  privateIPv4 : Option String
  privateIPv6 : Option String
deriving DecidableEq, Repr

/-- A directed edge of the mesh DAG (`meshgraph` edge). -/
structure DagEdge where
  source : String
  target : String
deriving DecidableEq, Repr

/-- One row of the DAG adjacency map. -/
abbrev DagRow := List (String × DagEdge)

/-- The DAG adjacency map, Go `map[string]map[string]graph.Edge`. -/
abbrev DagMap := List (String × DagRow)

/-- A WireGuard peer record as handed to `wg.PutPeer`. -/
structure WGPeer where
  id : String
  publicKey : String
  endpoint : String
  allowedIPs : List String
deriving DecidableEq, Repr

/-- Go map read with `nil`-map default on the DAG adjacency map. -/
def dagRow (m : DagMap) (k : String) : DagRow :=
  ((m.find? (fun kv => kv.1 = k)).map (fun kv => kv.2)).getD []

/-- Go `_, ok := row[k]` on a DAG row. -/
def dagRowHasKey (row : DagRow) (k : String) : Bool :=
  row.any (fun kv => kv.1 = k)

/-- An optional prefix as the list appended to allowed-IPs: the prefix
itself when valid, nothing otherwise. -/
def validList (p : Option String) : List String :=
  match p with
  | some a => [a]
  | none => []

/-- Loop body of `walkMeshDescendants` for one direct descendant entry
`(descendant, edge)`: build the WireGuard peer for the descendant,
seeding allowed-IPs with its own valid private prefixes, then append the
valid private prefixes of every target adjacent to `edge.Target` that is
neither one of the local node's direct descendants nor the local node
itself. -/
def buildPeer (vertex : String → MeshVertex) (adj : DagMap)
    (ourDescendants : DagRow) (nodeID : String) (entry : String × DagEdge) :
    WGPeer :=
  let desc := vertex entry.1
  let base := validList desc.privateIPv4 ++ validList desc.privateIPv6
  let descTargets := dagRow adj entry.2.target
  { id := desc.id
    publicKey := desc.publicKey
    endpoint := desc.publicEndpoint
    allowedIPs := descTargets.foldl
      (fun acc q =>
        if !dagRowHasKey ourDescendants q.1 && q.1 ≠ nodeID then
          acc ++ validList (vertex q.1).privateIPv4
              ++ validList (vertex q.1).privateIPv6
        else acc)
      base }

/-- The sequence of WireGuard peers `walkMeshDescendants` hands to
`wg.PutPeer`: one per entry of the local node's row of the adjacency
map (no peers at all when that row is empty). -/
def walkPeers (vertex : String → MeshVertex) (adj : DagMap) (nodeID : String) :
    List WGPeer :=
  (dagRow adj nodeID).map (buildPeer vertex adj (dagRow adj nodeID) nodeID)

/-- A mesh DAG as consumed by the walk: `AdjacencyMap()` may fail, and
`Vertex` ignores its error in the source (`desc, _ := graph.Vertex(...)`),
so it is a total function returning the zero vertex on a miss. -/
structure MeshGraph where
  adjacency : Except String DagMap
  vertex : String → MeshVertex

/-- Put a list of peers in order, stopping at the first driver error
(`put peer: ...`). -/
def putAll (putPeer : WGPeer → Except String Unit) :
    List WGPeer → Except String Unit
  | [] => .ok ()
  | p :: rest =>
    match putPeer p with
    | .error e => .error ("put peer: " ++ e)
    | .ok () => putAll putPeer rest

/-- `walkMeshDescendants` from the store: fetch the adjacency map
(propagating its failure), then put one WireGuard peer per direct
descendant of the local node. -/
def walkMeshDescendants (putPeer : WGPeer → Except String Unit)
    (graph : MeshGraph) (nodeID : String) : Except String Unit :=
  match graph.adjacency with
  | .error e => .error ("adjacency map: " ++ e)
  | .ok adj => putAll putPeer (walkPeers graph.vertex adj nodeID)

/-- The store state needed by `RefreshWireguardPeers`: whether the
WireGuard interface is configured (`s.wg != nil`), the local node id,
the WireGuard driver `PutPeer`, and the result of building the mesh DAG
(`meshgraph.New(s).Build(ctx)`). -/
structure RefreshStore where
  hasWG : Bool
  nodeID : String
  putPeer : WGPeer → Except String Unit
  buildDag : Except String MeshGraph

/-- `RefreshWireguardPeers` from the store: a no-op before the interface
exists; a DAG build failure is returned to the caller; a failure of
`walkMeshDescendants` is logged and swallowed (`return nil`). -/
def RefreshWireguardPeers (s : RefreshStore) : Except String Unit :=
  if s.hasWG then
    match s.buildDag with
    | .error e => .error e
    | .ok dag =>
      match walkMeshDescendants s.putPeer dag s.nodeID with
      | .error _ => .ok ()
      | .ok () => .ok ()
  else .ok ()

end MeshStore

namespace NodeJoin

/-- A stored peer record as the join handler sees it (the registry's
`peers.Node`): `endpoint` is `none` for the zero `netip.AddrPort`. -/
structure PeerNode where
  id : String
  publicKey : String
  grpcPort : Int
  raftPort : Int
  endpoint : Option String
  allowedIPs : List String
  availableZones : List String
  networkIPv6 : String
  privateIPv4 : String
  asn : Nat
deriving DecidableEq, Repr

/-- The fields of `v1.JoinRequest` the handler reads. -/
structure JoinRequest where
  id : String
  publicKey : String
  endpoint : String
  grpcPort : Int
  raftPort : Int
  assignIpv4 : Bool
  preferRaftIpv6 : Bool
  assignAsn : Bool
  allowedIps : List String
  availableZones : List String
deriving DecidableEq, Repr

/-- One entry of the `JoinResponse` peer list (`v1.WireguardPeer`). -/
structure WireguardPeerMsg where
  publicKey : String
  asn : Nat
  endpoint : String
  addressIpv4 : String
  addressIpv6 : String
  allowedIps : List String
deriving DecidableEq, Repr

/-- The fields of `v1.JoinResponse` the handler writes. -/
structure JoinResponse where
  networkIpv6 : String
  asn : Nat
  addressIpv4 : String
  peers : List WireguardPeerMsg
deriving DecidableEq, Repr

/-- The gRPC status codes the handler returns. -/
inductive JoinError where
  | failedPrecondition
  | invalidArgument
  | internal
deriving DecidableEq, Repr

/-- External parsers used by `Join`: `wgtypes.ParseKey`,
`netip.ParseAddrPort` and `netip.ParsePrefix`, abstracted as partial
string normalizers (`none` is the Go error). -/
structure Parsers where
  parseKey : String → Option String
  parseAddrPort : String → Option String
  parseCidr : String → Option String

/-- The server and replicated-storage state `Join` reads and writes:
leader flag, the cached / stored ULA prefix, the peer registry, the IPAM
lease table, the raft membership, and the allocator counters (the ASN
counter and the lease allocator are modelled from the spec: "optionally
assign an ASN (monotonic counter)", "Allocator must emit the next free
address in the cluster IPv4 prefix in deterministic order").
`freshIPv6` models `util.Random64(s.ulaPrefix)`, the next /112 host
prefix drawn from the ULA. -/
structure ServerState where
  isLeader : Bool
  ulaCidr : Option String
  dbUla : Except String String
  peers : List PeerNode
  leases : List (String × String)
  raftMembers : List (String × String)
  nextASN : Nat
  nextLeaseNum : Nat
  freshIPv6 : String
deriving DecidableEq, Repr

/-- Registry lookup `s.peers.Get` (`ErrNodeNotFound` is `none`). -/
def peersGet (st : ServerState) (id : String) : Option PeerNode :=
  st.peers.find? (fun p => p.id = id)

/-- Modelled from the spec: the registry `Update` operation (the peers
package is not part of this excerpt) — persist the node record in place
under its id. -/
def peersUpdate (st : ServerState) (p : PeerNode) : ServerState :=
  { st with peers := st.peers.map (fun q => if q.id = p.id then p else q) }

/-- Modelled from the spec: the registry `Create` operation — persist a
new node record built from the request fields (no ASN and no IPv4 lease
yet; both are assigned by later steps of `Join`). -/
def peersCreate (st : ServerState) (req : JoinRequest) (publicKey : String)
    (endpoint : Option String) (networkIPv6 : String) :
    PeerNode × ServerState :=
  let p : PeerNode :=
    { id := req.id
      publicKey := publicKey
      grpcPort := req.grpcPort
      raftPort := req.raftPort
      endpoint := endpoint
      allowedIPs := req.allowedIps
      availableZones := req.availableZones
      networkIPv6 := networkIPv6
      privateIPv4 := ""
      asn := 0 }
  (p, { st with peers := st.peers ++ [p] })

/-- Modelled from the spec: `AssignASN` — draw the next value of the
monotonic ASN counter (always nonzero) and persist it on the node's
record. -/
def assignASN (st : ServerState) (id : String) : Nat × ServerState :=
  let asn := st.nextASN + 1
  (asn,
    { st with
        nextASN := asn
        peers := st.peers.map
          (fun q => if q.id = id then { q with asn := asn } else q) })

/-- Modelled from the spec: the textual form of the next free IPv4 host
address handed out by the lease allocator. -/
def leaseAddr (n : Nat) : String :=
  "lease-" ++ toString n

/-- Modelled from the spec: `ipam.Acquire` — a lease is unique per node
id, so an existing lease is returned as is; otherwise the next free
address is bound to the node. -/
def ipamAcquire (st : ServerState) (id : String) : String × ServerState :=
  match st.leases.find? (fun l => l.1 = id) with
  | some l => (l.2, st)
  | none =>
    let a := leaseAddr st.nextLeaseNum
    (a, { st with leases := st.leases ++ [(id, a)]
                  nextLeaseNum := st.nextLeaseNum + 1 })

/-- Modelled from the spec: `store.AddNonVoter` — record the joiner's
raft address under its id (set semantics keyed by id). -/
def addNonVoter (st : ServerState) (id addr : String) : ServerState :=
  if st.raftMembers.any (fun q => q.1 = id) then
    { st with raftMembers :=
        st.raftMembers.map (fun q => if q.1 = id then (id, addr) else q) }
  else
    { st with raftMembers := st.raftMembers ++ [(id, addr)] }

/-- Registry `ListPeers`: every stored record except the given id. -/
def listPeers (st : ServerState) (excluding : String) : List PeerNode :=
  st.peers.filter (fun p => p.id ≠ excluding)

/-- The address part of a CIDR string (`Prefix.Addr().String()`). -/
def addrOfCidr (s : String) : String :=
  ⟨s.data.takeWhile (fun c => c ≠ '/')⟩

/-- Go `net.JoinHostPort`. -/
def joinHostPort (host : String) (port : Int) : String :=
  host ++ ":" ++ toString port

/-- The raft address `Join` registers for the joiner: its IPv4 lease
address when one was requested (unless raft prefers IPv6), otherwise its
IPv6 host address, with the node's raft port. -/
def raftAddrFor (req : JoinRequest) (p : PeerNode) (addr4 : String) : String :=
  if req.assignIpv4 && !req.preferRaftIpv6 then
    joinHostPort (addrOfCidr addr4) p.raftPort
  else
    joinHostPort (addrOfCidr p.networkIPv6) p.raftPort

/-- Go `AddrPort.String()` with `""` for the zero value. -/
def endpointText (e : Option String) : String :=
  e.getD ""

/-- The ULA-prefix step of `Join`: use the cached prefix if valid,
otherwise read it from the database and parse it, caching the result;
failures are `INTERNAL`. -/
def joinUla (P : Parsers) (st : ServerState) :
    Except JoinError ServerState :=
  match st.ulaCidr with
  | some _ => .ok st
  | none =>
    match st.dbUla with
    | .error _ => .error .internal
    | .ok raw =>
      match P.parseCidr raw with
      | none => .error .internal
      | some u => .ok { st with ulaCidr := some u }

/-- Tail of `Join` after the peer record is persisted (`peer` is the
merged or created record): optionally assign an ASN when the record has
none, optionally acquire the IPv4 lease, register the joiner as a raft
non-voter at its IPv4 (preferred unless `prefer_raft_ipv6`) or IPv6
address, and build the response with the joiner's addresses and the
other peers. -/
def joinFinish (st : ServerState) (req : JoinRequest) (peer : PeerNode) :
    Except JoinError JoinResponse × ServerState :=
  let asnStep : Nat × ServerState :=
    if req.assignAsn && peer.asn = 0 then assignASN st req.id
    else (peer.asn, st)
  let respAsn := asnStep.1
  let st1 := asnStep.2
  let leaseStep : Option String × ServerState :=
    if req.assignIpv4 then
      (some (ipamAcquire st1 req.id).1, (ipamAcquire st1 req.id).2)
    else (none, st1)
  let leaseAddr4 := leaseStep.1
  let st2 := leaseStep.2
  let addressIpv4 := leaseAddr4.getD ""
  let raftAddress :=
    if req.assignIpv4 && !req.preferRaftIpv6 then
      joinHostPort (addrOfCidr (leaseAddr4.getD "")) peer.raftPort
    else
      joinHostPort (addrOfCidr peer.networkIPv6) peer.raftPort
  let st3 := addNonVoter st2 req.id raftAddress
  let others := listPeers st3 req.id
  let resp : JoinResponse :=
    { networkIpv6 := peer.networkIPv6
      asn := respAsn
      addressIpv4 := addressIpv4
      peers := others.map (fun p =>
        { publicKey := p.publicKey
          asn := p.asn
          endpoint := endpointText p.endpoint
          addressIpv4 := p.privateIPv4
          addressIpv6 := p.networkIPv6
          allowedIps := p.allowedIPs }) }
  (.ok resp, st3)

/-- `Join` from `server_join.go`: refuse on a follower before anything
else; resolve the ULA prefix; validate id, public key and endpoint
(`INVALID_ARGUMENT`); then either merge the request's mutable fields
into the existing record with that id, or create a new record with a
fresh IPv6 host prefix; finish with ASN / lease / non-voter / response
assembly.  The conditional field assignments of the merge are modelled
as unconditional writes of the same values. -/
def Join (P : Parsers) (st0 : ServerState) (req : JoinRequest) :
    Except JoinError JoinResponse × ServerState :=
  if !st0.isLeader then (.error .failedPrecondition, st0)
  else
    match joinUla P st0 with
    | .error e => (.error e, st0)
    | .ok st1 =>
      if req.id = "" then (.error .invalidArgument, st1)
      else
        match P.parseKey req.publicKey with
        | none => (.error .invalidArgument, st1)
        | some publicKey =>
          match (if req.endpoint = "" then some none
                 else (P.parseAddrPort req.endpoint).map some :
                 Option (Option String)) with
          | none => (.error .invalidArgument, st1)
          | some endpoint =>
            match peersGet st1 req.id with
            | some peer0 =>
              let merged : PeerNode :=
                { peer0 with
                    publicKey := publicKey
                    grpcPort := req.grpcPort
                    raftPort := req.raftPort
                    endpoint := endpoint
                    allowedIPs := req.allowedIps
                    availableZones := req.availableZones }
              joinFinish (peersUpdate st1 merged) req merged
            | none =>
              let (peer, st2) :=
                peersCreate st1 req publicKey endpoint st1.freshIPv6
              joinFinish st2 req peer

end NodeJoin

namespace JoinClient

/-- Outcome of one iteration of the client join loop: the gRPC dial or
the Join RPC fails (and the context may or may not already be done at
the failure), or the RPC succeeds with a response. -/
inductive Attempt where
  | dialErr (ctxDone : Bool)
  | joinErr (ctxDone : Bool)
  | success (resp : Nat)
deriving DecidableEq, Repr

/-- How the retry loop ended: context error surfaced immediately, loop
exhausted with the budget spent, or a response obtained. -/
inductive LoopExit where
  | ctx
  | exhausted
  | got (resp : Nat)
deriving DecidableEq, Repr

/-- Final result of the client `join` call (ignoring the post-response
WireGuard configuration): the context error, the generic
"join request failed" error produced after an exhausted loop (the last
RPC error is lost to shadowing in the source), or success. -/
inductive JoinResult where
  | ctxError
  | joinFailed
  | ok (resp : Nat)
deriving DecidableEq, Repr

/-- The retry loop `for tries <= s.opts.MaxJoinRetries`: `attempts` maps
the value of `tries` to that iteration's outcome, `budget` is the number
of loop iterations the guard still allows.  A failed attempt returns the
context error at once when the context is done, and otherwise sleeps one
second and retries; a success breaks out.  Returns the exit, the number
of attempts made, and the number of one-second sleeps. -/
def loopAux (attempts : Nat → Attempt) :
    Nat → Nat → Nat → Nat → LoopExit × Nat × Nat
  | _, 0, made, sleeps => (.exhausted, made, sleeps)
  | tries, budget + 1, made, sleeps =>
    match attempts tries with
    | .dialErr true => (.ctx, made + 1, sleeps)
    | .dialErr false => loopAux attempts (tries + 1) budget (made + 1) (sleeps + 1)
    | .joinErr true => (.ctx, made + 1, sleeps)
    | .joinErr false => loopAux attempts (tries + 1) budget (made + 1) (sleeps + 1)
    | .success r => (.got r, made + 1, sleeps)

/-- The client-side `join` retry logic: run the loop from `tries = 0`
with `maxJoinRetries + 1` guard-allowed iterations; after the loop a
missing response is the "join request failed" error. -/
def joinLoop (attempts : Nat → Attempt) (maxJoinRetries : Nat) :
    JoinResult × Nat × Nat :=
  match loopAux attempts 0 (maxJoinRetries + 1) 0 0 with
  | (.ctx, made, sleeps) => (.ctxError, made, sleeps)
  | (.exhausted, made, sleeps) => (.joinFailed, made, sleeps)
  | (.got r, made, sleeps) => (.ok r, made, sleeps)

/-- Whether an attempt outcome is a failure the loop retries (any dial
or RPC failure with the context still live). -/
def retryable : Attempt → Bool
  | .dialErr false => true
  | .joinErr false => true
  | _ => false

/-- Whether an attempt outcome is a failure with the context done. -/
def ctxFailure : Attempt → Bool
  | .dialErr true => true
  | .joinErr true => true
  | _ => false

end JoinClient

namespace Examples

/-- A concrete parser bundle for witnesses: the empty string fails to
parse, anything else is returned unchanged. -/
def cxParsers : NodeJoin.Parsers :=
  { parseKey := fun s => if s = "" then none else some s
    parseAddrPort := fun s => if s = "" then none else some s
    parseCidr := fun s => some s }

/-- A concrete leader state with one registered peer `x`. -/
def cxState : NodeJoin.ServerState :=
  { isLeader := true
    ulaCidr := some "fd00::/48"
    dbUla := .ok "fd00::/48"
    peers := [{ id := "x", publicKey := "K1", grpcPort := 1, raftPort := 2
                endpoint := none, allowedIPs := [], availableZones := []
                networkIPv6 := "fd00::aa/112", privateIPv4 := "", asn := 0 }]
    leases := []
    raftMembers := []
    nextASN := 0
    nextLeaseNum := 7
    freshIPv6 := "fd00::bb/112" }

/-- A concrete join request for node `x`. -/
def cxReq : NodeJoin.JoinRequest :=
  { id := "x", publicKey := "K2", endpoint := "1.2.3.4:5", grpcPort := 9
    raftPort := 10, assignIpv4 := true, preferRaftIpv6 := false
    assignAsn := true, allowedIps := ["10.9.0.0/16"], availableZones := ["z"] }

/-- A concrete registry lookup for the line `a → b → c`. -/
def cxResolve : String → Option Networking.MeshNode := fun k =>
  if k = "a" then some ⟨"a", "10.0.0.1/32", "fd00::1/112"⟩
  else if k = "b" then some ⟨"b", "10.0.0.2/32", "fd00::2/112"⟩
  else if k = "c" then some ⟨"c", "10.0.0.3/32", "fd00::3/112"⟩
  else none

/-- A concrete filter environment over the line `a → b → c` where node
`c` advertises the route `192.168.10.0/24` and the ACLs reject exactly
that destination CIDR. -/
def cxEnv : Networking.FilterEnv :=
  { resolve := cxResolve
    aclNames := ["acl1"]
    expandOk := true
    allow := fun _ _ => true
    accept := fun act => act.dstCidr ≠ "192.168.10.0/24"
    fullMap :=
      [ ("a", [("b", ⟨"a", "b"⟩)])
      , ("b", [("a", ⟨"b", "a"⟩), ("c", ⟨"b", "c"⟩)])
      , ("c", [("b", ⟨"c", "b"⟩)]) ]
    routes := [⟨"r1", "c", ["192.168.10.0/24"]⟩]
    parseCidr := fun _ => some ⟨true⟩ }

/-- The concrete mesh DAG `a → b → c` for the reconciler walk. -/
def cxDag : MeshStore.DagMap :=
  [ ("a", [("b", ⟨"a", "b"⟩)])
  , ("b", [("c", ⟨"b", "c"⟩)]) ]

/-- Vertex data for the walk over `cxDag`. -/
def cxVertex : String → MeshStore.MeshVertex := fun k =>
  if k = "a" then ⟨"a", "PKa", "a.example:51820", some "10.0.0.1/32", some "fd00::1/112"⟩
  else if k = "b" then ⟨"b", "PKb", "", some "10.0.0.2/32", none⟩
  else if k = "c" then ⟨"c", "PKc", "", some "10.0.0.3/32", some "fd00::3/112"⟩
  else ⟨"", "", "", none, none⟩

/-- A refresh store whose DAG builds fine but whose driver rejects every
peer, so the walk fails. -/
def cxRefreshWalkFails : MeshStore.RefreshStore :=
  { hasWG := true
    nodeID := "a"
    putPeer := fun _ => .error "driver down"
    buildDag := .ok { adjacency := .ok cxDag, vertex := cxVertex } }

/-- A refresh store whose DAG build fails. -/
def cxRefreshBuildFails : MeshStore.RefreshStore :=
  { hasWG := true
    nodeID := "a"
    putPeer := fun _ => .ok ()
    buildDag := .error "db gone" }

/-- The state `Join` produces from `cxState` and `cxReq`: the record of
`x` merged in place, a lease and a raft member added, counters bumped. -/
def cxSt1 : NodeJoin.ServerState :=
  { isLeader := true
    ulaCidr := some "fd00::/48"
    dbUla := .ok "fd00::/48"
    peers := [{ id := "x", publicKey := "K2", grpcPort := 9, raftPort := 10
                endpoint := some "1.2.3.4:5", allowedIPs := ["10.9.0.0/16"]
                availableZones := ["z"], networkIPv6 := "fd00::aa/112"
                privateIPv4 := "", asn := 1 }]
    leases := [("x", "lease-7")]
    raftMembers := [("x", "lease-7:10")]
    nextASN := 1
    nextLeaseNum := 8
    freshIPv6 := "fd00::bb/112" }

/-- The response `Join` produces from `cxState` and `cxReq`. -/
def cxResp1 : NodeJoin.JoinResponse :=
  { networkIpv6 := "fd00::aa/112", asn := 1, addressIpv4 := "lease-7"
    peers := [] }

/-- A concrete run of the client join loop: the first dial fails with
the context still live, the second attempt succeeds. -/
def cxAttempts : Nat → JoinClient.Attempt := fun n =>
  if n = 0 then .dialErr false else .success 7

end Examples

namespace Networking

/-- Membership in `GetRoutesByCIDR` is exactly: the route is in the input
list and some destination CIDR starts with the argument string. -/
theorem mem_getRoutesByCIDR (routes : List Route) (cidr : String) (r : Route) :
    r ∈ GetRoutesByCIDR routes cidr ↔
      r ∈ routes ∧ ∃ d ∈ r.destinationCidrs, goHasPrefix d cidr := by
  induction routes with
  | nil => simp [GetRoutesByCIDR]
  | cons hd tl ih =>
    by_cases hmatch : hd.destinationCidrs.any (fun destination => goHasPrefix destination cidr)
    · rw [GetRoutesByCIDR, if_pos hmatch]
      simp only [List.mem_cons, List.any_eq_true, decide_eq_true_eq] at hmatch ⊢
      constructor
      · rintro (rfl | hr)
        · exact ⟨Or.inl rfl, hmatch⟩
        · rcases ih.mp hr with ⟨h1, h2⟩
          exact ⟨Or.inr h1, h2⟩
      · rintro ⟨rfl | h1, h2⟩
        · exact Or.inl rfl
        · exact Or.inr (ih.mpr ⟨h1, h2⟩)
    · rw [GetRoutesByCIDR, if_neg hmatch]
      simp only [List.any_eq_true, decide_eq_true_eq] at hmatch
      rw [ih]
      simp only [List.mem_cons]
      constructor
      · rintro ⟨h1, h2⟩
        exact ⟨Or.inr h1, h2⟩
      · rintro ⟨rfl | h1, h2⟩
        · exact absurd h2 hmatch
        · exact ⟨h1, h2⟩

end Networking

namespace Networking

/-- C10: `GetRoutesByCIDR` returns exactly the routes having at least one
destination CIDR whose string form begins with the argument as a string
prefix (`strings.HasPrefix`), not IP-prefix containment; in particular
the argument `192.168.1` matches a route whose destination is
`192.168.10.0/24`. -/
theorem getRoutesByCIDR_is_string_prefix_match :
    (∀ (routes : List Route) (cidr : String) (r : Route),
        r ∈ GetRoutesByCIDR routes cidr ↔
          r ∈ routes ∧ ∃ d ∈ r.destinationCidrs, goHasPrefix d cidr) ∧
    GetRoutesByCIDR [⟨"ex", "D", ["192.168.10.0/24"]⟩] "192.168.1"
      = [⟨"ex", "D", ["192.168.10.0/24"]⟩] :=
  ⟨mem_getRoutesByCIDR, by decide⟩

/-- C4: on the leader of a resolvable observer, `FilterGraph` with an
empty ACL list returns the empty (Go `nil`) adjacency map: with no ACLs
nothing is reachable. -/
theorem filterGraph_empty_acls_empty_map (env : FilterEnv) (obsID : String)
    (obsNode : MeshNode) (hres : env.resolve obsID = some obsNode)
    (hacl : env.aclNames = []) :
    FilterGraph env obsID = .ok [] := by
  unfold FilterGraph
  rw [hres, hacl]
  rfl

/-- Witness for C4 at the concrete line environment. -/
theorem filterGraph_empty_acls_empty_map_witness :
    ({ Examples.cxEnv with aclNames := [] } : FilterEnv).resolve "a"
        = some ⟨"a", "10.0.0.1/32", "fd00::1/112"⟩ ∧
    FilterGraph { Examples.cxEnv with aclNames := [] } "a" = .ok [] :=
  ⟨rfl, filterGraph_empty_acls_empty_map _ "a" ⟨"a", "10.0.0.1/32", "fd00::1/112"⟩ rfl rfl⟩

end Networking

namespace MeshStore

/-- C8: once the WireGuard interface exists, a failure to build the mesh
DAG is returned to the caller of `RefreshWireguardPeers`, while a failure
of `walkMeshDescendants` is swallowed: the call returns `nil` (ok) after
logging. -/
theorem refreshWireguardPeers_swallows_walk_error (s : RefreshStore)
    (hwg : s.hasWG = true) :
    (∀ e, s.buildDag = .error e → RefreshWireguardPeers s = .error e) ∧
    (∀ g e, s.buildDag = .ok g →
        walkMeshDescendants s.putPeer g s.nodeID = .error e →
        RefreshWireguardPeers s = .ok ()) := by
  constructor
  · intro e he
    simp [RefreshWireguardPeers, hwg, he]
  · intro g e hg hw
    simp [RefreshWireguardPeers, hwg, hg, hw]

/-- Witness for C8: the DAG builds but the driver refuses the first
`PutPeer`, and `RefreshWireguardPeers` still reports success; a second
store whose build fails propagates the build error. -/
theorem refreshWireguardPeers_swallows_walk_error_witness :
    Examples.cxRefreshWalkFails.hasWG = true ∧
    RefreshWireguardPeers Examples.cxRefreshWalkFails = .ok () ∧
    RefreshWireguardPeers Examples.cxRefreshBuildFails = .error "db gone" :=
  ⟨rfl,
   (refreshWireguardPeers_swallows_walk_error Examples.cxRefreshWalkFails rfl).2
     { adjacency := .ok Examples.cxDag, vertex := Examples.cxVertex }
     "put peer: driver down" rfl (by decide),
   (refreshWireguardPeers_swallows_walk_error Examples.cxRefreshBuildFails rfl).1
     "db gone" rfl⟩

end MeshStore

namespace NodeJoin

/-- C6: `Join` on a non-leader returns `FAILED_PRECONDITION` before any
validation, allocation or storage write: the state is returned
untouched. -/
theorem join_follower_rejected_unmutated (P : Parsers) (st : ServerState)
    (req : JoinRequest) (h : st.isLeader = false) :
    Join P st req = (.error .failedPrecondition, st) := by
  unfold Join
  rw [h]
  rfl

/-- Witness for C6 at the concrete follower state. -/
theorem join_follower_rejected_unmutated_witness :
    ({ Examples.cxState with isLeader := false } : ServerState).isLeader = false ∧
    Join Examples.cxParsers { Examples.cxState with isLeader := false }
        Examples.cxReq
      = (.error .failedPrecondition, { Examples.cxState with isLeader := false }) :=
  ⟨rfl, join_follower_rejected_unmutated Examples.cxParsers _ Examples.cxReq rfl⟩

/-- C7: on the leader (with the ULA prefix already cached), an empty
request id, an unparseable public key, or a non-empty unparseable
endpoint makes `Join` return `INVALID_ARGUMENT` with the state — in
particular the peer registry — untouched. -/
theorem join_invalid_argument_unmutated (P : Parsers) (st : ServerState)
    (req : JoinRequest) (hl : st.isLeader = true)
    (hu : st.ulaCidr.isSome = true)
    (hbad : req.id = "" ∨ P.parseKey req.publicKey = none ∨
      (req.endpoint ≠ "" ∧ P.parseAddrPort req.endpoint = none)) :
    Join P st req = (.error .invalidArgument, st) := by
  obtain ⟨u, hu'⟩ := Option.isSome_iff_exists.mp hu
  unfold Join joinUla
  rw [hl, hu']
  by_cases hid : req.id = ""
  · simp [hid]
  · rcases hbad with hbad | hbad | ⟨hne, hbad⟩
    · exact absurd hbad hid
    · simp [hid, hbad]
    · by_cases hkey : P.parseKey req.publicKey = none
      · simp [hid, hkey]
      · obtain ⟨k, hk⟩ := Option.ne_none_iff_exists'.mp hkey
        simp [hid, hk, hne, hbad]

/-- Witness for C7: the concrete leader state with an empty public
key. -/
theorem join_invalid_argument_unmutated_witness :
    Examples.cxState.isLeader = true ∧
    Examples.cxState.ulaCidr.isSome = true ∧
    Examples.cxParsers.parseKey "" = none ∧
    Join Examples.cxParsers Examples.cxState
        { Examples.cxReq with publicKey := "" }
      = (.error .invalidArgument, Examples.cxState) :=
  ⟨rfl, rfl, rfl,
   join_invalid_argument_unmutated Examples.cxParsers Examples.cxState
     { Examples.cxReq with publicKey := "" } rfl rfl (Or.inr (Or.inl rfl))⟩

end NodeJoin

namespace JoinClient

/-- A retried failure is one where the context was still live, so it is
never a context failure. -/
theorem retryable_not_ctxFailure (a : Attempt) (h : retryable a = true) :
    ctxFailure a = false := by
  cases a with
  | dialErr c => cases c <;> simp_all [retryable, ctxFailure]
  | joinErr c => cases c <;> simp_all [retryable, ctxFailure]
  | success r => simp [ctxFailure]

/-- Full characterization of the retry loop body: the attempt count is
bounded by the remaining budget; all but the last attempt are retryable
failures; an exhausted loop spent the whole budget sleeping after every
failure; a context exit happens right at a failed attempt with the
context done; a success exit returns that attempt's response. -/
theorem loopAux_spec (attempts : Nat → Attempt) :
    ∀ (budget t s : Nat) (ex : LoopExit) (made sleeps : Nat),
      loopAux attempts t budget t s = (ex, made, sleeps) →
      made ≤ t + budget ∧
      (∀ j, t ≤ j → j + 1 < made → retryable (attempts j) = true) ∧
      (ex = .exhausted →
        made = t + budget ∧ sleeps = s + budget ∧
        ∀ j, t ≤ j → j < made → retryable (attempts j) = true) ∧
      (ex = .ctx → t < made ∧ ctxFailure (attempts (made - 1)) = true ∧
        sleeps = s + (made - 1 - t)) ∧
      (∀ r, ex = .got r → t < made ∧ attempts (made - 1) = .success r ∧
        sleeps = s + (made - 1 - t)) := by
  intro budget
  induction budget with
  | zero =>
    intro t s ex made sleeps h
    simp only [loopAux, Prod.mk.injEq] at h
    obtain ⟨rfl, rfl, rfl⟩ := h
    refine ⟨Nat.le_refl _, ?_, ?_, ?_, ?_⟩
    · intro j h1 h2; omega
    · intro _; exact ⟨rfl, rfl, fun j h1 h2 => by omega⟩
    · intro hc; cases hc
    · intro r hr; cases hr
  | succ b ih =>
    intro t s ex made sleeps h
    rw [loopAux] at h
    cases hA : attempts t with
    | dialErr c =>
      rw [hA] at h
      cases c with
      | true =>
        simp only [Prod.mk.injEq] at h
        obtain ⟨rfl, rfl, rfl⟩ := h
        refine ⟨by omega, ?_, ?_, ?_, ?_⟩
        · intro j h1 h2; omega
        · intro hc; cases hc
        · intro _
          refine ⟨by omega, ?_, by omega⟩
          simp only [Nat.add_sub_cancel]
          rw [hA]
          rfl
        · intro r hr; cases hr
      | false =>
        obtain ⟨hb, hr, hex, hctx, hgot⟩ := ih (t + 1) (s + 1) ex made sleeps h
        refine ⟨by omega, ?_, ?_, ?_, ?_⟩
        · intro j h1 h2
          rcases Nat.eq_or_lt_of_le h1 with rfl | h1'
          · simp [retryable, hA]
          · exact hr j h1' h2
        · intro he
          obtain ⟨h1, h2, h3⟩ := hex he
          refine ⟨by omega, by omega, ?_⟩
          intro j hj1 hj2
          rcases Nat.eq_or_lt_of_le hj1 with rfl | hj1'
          · simp [retryable, hA]
          · exact h3 j hj1' hj2
        · intro hc
          obtain ⟨h1, h2, h3⟩ := hctx hc
          exact ⟨by omega, h2, by omega⟩
        · intro r hrr
          obtain ⟨h1, h2, h3⟩ := hgot r hrr
          exact ⟨by omega, h2, by omega⟩
    | joinErr c =>
      rw [hA] at h
      cases c with
      | true =>
        simp only [Prod.mk.injEq] at h
        obtain ⟨rfl, rfl, rfl⟩ := h
        refine ⟨by omega, ?_, ?_, ?_, ?_⟩
        · intro j h1 h2; omega
        · intro hc; cases hc
        · intro _
          refine ⟨by omega, ?_, by omega⟩
          simp only [Nat.add_sub_cancel]
          rw [hA]
          rfl
        · intro r hr; cases hr
      | false =>
        obtain ⟨hb, hr, hex, hctx, hgot⟩ := ih (t + 1) (s + 1) ex made sleeps h
        refine ⟨by omega, ?_, ?_, ?_, ?_⟩
        · intro j h1 h2
          rcases Nat.eq_or_lt_of_le h1 with rfl | h1'
          · simp [retryable, hA]
          · exact hr j h1' h2
        · intro he
          obtain ⟨h1, h2, h3⟩ := hex he
          refine ⟨by omega, by omega, ?_⟩
          intro j hj1 hj2
          rcases Nat.eq_or_lt_of_le hj1 with rfl | hj1'
          · simp [retryable, hA]
          · exact h3 j hj1' hj2
        · intro hc
          obtain ⟨h1, h2, h3⟩ := hctx hc
          exact ⟨by omega, h2, by omega⟩
        · intro r hrr
          obtain ⟨h1, h2, h3⟩ := hgot r hrr
          exact ⟨by omega, h2, by omega⟩
    | success r =>
      rw [hA] at h
      simp only [Prod.mk.injEq] at h
      obtain ⟨rfl, rfl, rfl⟩ := h
      refine ⟨by omega, ?_, ?_, ?_, ?_⟩
      · intro j h1 h2; omega
      · intro hc; cases hc
      · intro hc; cases hc
      · intro r' hr'
        cases hr'
        refine ⟨by omega, ?_, by omega⟩
        simpa using hA

/-- C9: the client join loop makes at most `max_join_retries` retries
beyond the initial attempt; every non-final attempt is a dial or RPC
failure with the context still live, retried after a one-second sleep;
the context error is surfaced exactly when a failure happens with the
context done; success returns the response of the final attempt; an
exhausted loop made all `max_join_retries + 1` attempts, every one a
retried failure. -/
theorem joinLoop_bounded_retries (attempts : Nat → Attempt)
    (maxJoinRetries : Nat) (res : JoinResult) (made sleeps : Nat)
    (h : joinLoop attempts maxJoinRetries = (res, made, sleeps)) :
    1 ≤ made ∧ made ≤ maxJoinRetries + 1 ∧
    (∀ j, j + 1 < made → retryable (attempts j) = true) ∧
    (res = .ctxError ↔ ctxFailure (attempts (made - 1)) = true) ∧
    (∀ r, res = .ok r → attempts (made - 1) = .success r) ∧
    (res = .joinFailed → made = maxJoinRetries + 1 ∧
      (∀ j, j < made → retryable (attempts j) = true) ∧ sleeps = made) ∧
    (res ≠ .joinFailed → sleeps = made - 1) := by
  unfold joinLoop at h
  rcases hL : loopAux attempts 0 (maxJoinRetries + 1) 0 0 with ⟨ex, m, sl⟩
  rw [hL] at h
  obtain ⟨hb, hr, hex, hctx, hgot⟩ :=
    loopAux_spec attempts (maxJoinRetries + 1) 0 0 ex m sl hL
  cases ex with
  | ctx =>
    simp only [Prod.mk.injEq] at h
    obtain ⟨rfl, rfl, rfl⟩ := h
    obtain ⟨h1, h2, h3⟩ := hctx rfl
    refine ⟨by omega, by omega, fun j hj => hr j (by omega) hj, ?_, ?_, ?_, ?_⟩
    · exact ⟨fun _ => h2, fun _ => rfl⟩
    · intro r hr'; cases hr'
    · intro hjf; cases hjf
    · intro _; omega
  | exhausted =>
    simp only [Prod.mk.injEq] at h
    obtain ⟨rfl, rfl, rfl⟩ := h
    obtain ⟨h1, h2, h3⟩ := hex rfl
    refine ⟨by omega, by omega, fun j hj => hr j (by omega) hj, ?_, ?_, ?_, ?_⟩
    · constructor
      · intro hc; cases hc
      · intro hcf
        have hretry := h3 (m - 1) (by omega) (by omega)
        rw [retryable_not_ctxFailure _ hretry] at hcf
        cases hcf
    · intro r hr'; cases hr'
    · intro _
      exact ⟨by omega, fun j hj => h3 j (by omega) hj, by omega⟩
    · intro hne; exact absurd rfl hne
  | got r =>
    simp only [Prod.mk.injEq] at h
    obtain ⟨rfl, rfl, rfl⟩ := h
    obtain ⟨h1, h2, h3⟩ := hgot r rfl
    refine ⟨by omega, by omega, fun j hj => hr j (by omega) hj, ?_, ?_, ?_, ?_⟩
    · constructor
      · intro hc; cases hc
      · intro hcf
        rw [h2] at hcf
        cases hcf
    · intro r' hr'
      cases hr'
      exact h2
    · intro hjf; cases hjf
    · intro _; omega

/-- Witness for C9 at a concrete attempt sequence: one live dial
failure, then success, with `max_join_retries = 2`. -/
theorem joinLoop_bounded_retries_witness :
    joinLoop Examples.cxAttempts 2 = (.ok 7, 2, 1) ∧
    (1 ≤ 2 ∧ 2 ≤ 2 + 1 ∧
      (∀ j, j + 1 < 2 → retryable (Examples.cxAttempts j) = true) ∧
      (JoinResult.ok 7 = .ctxError ↔
        ctxFailure (Examples.cxAttempts (2 - 1)) = true) ∧
      (∀ r, JoinResult.ok 7 = .ok r →
        Examples.cxAttempts (2 - 1) = .success r) ∧
      (JoinResult.ok 7 = .joinFailed → 2 = 2 + 1 ∧
        (∀ j, j < 2 → retryable (Examples.cxAttempts j) = true) ∧ 1 = 2) ∧
      (JoinResult.ok 7 ≠ .joinFailed → 1 = 2 - 1)) :=
  ⟨by decide, joinLoop_bounded_retries Examples.cxAttempts 2 (.ok 7) 2 1 (by decide)⟩

end JoinClient

namespace MeshStore

/-- Membership in a conditional accumulating fold: anything in the seed
list survives, and every element contributed by a passing entry is
present. -/
theorem mem_condFold2 {α β : Type} (P : α → Bool) (f g : α → List β) :
    ∀ (l : List α) (base : List β) (x : β),
      (x ∈ base ∨ ∃ q ∈ l, P q = true ∧ (x ∈ f q ∨ x ∈ g q)) →
      x ∈ l.foldl (fun acc q => if P q then acc ++ f q ++ g q else acc) base := by
  intro l
  induction l with
  | nil =>
    intro base x h
    rcases h with h | ⟨q, hq, _⟩
    · simpa using h
    · cases hq
  | cons a l ih =>
    intro base x h
    rw [List.foldl_cons]
    apply ih
    rcases h with h | ⟨q, hq, hPq, hfg⟩
    · left
      split <;> simp [h]
    · rcases List.mem_cons.mp hq with rfl | hq'
      · left
        rw [if_pos hPq]
        rcases hfg with hf | hg
        · simp [hf]
        · simp [hg]
      · right
        exact ⟨q, hq', hPq, hfg⟩

/-- C1: the walk emits exactly one WireGuard peer per direct descendant
of the local node; that peer carries the descendant's public key and
endpoint, its allowed-IPs contain the descendant's private IPv4 and IPv6
prefixes whenever valid, plus, for every target adjacent to the
descendant that is neither a direct descendant of the local node nor the
local node itself, that target's valid private IPv4 and IPv6 prefixes —
so every grand-descendant's private IPv4 rides in its parent peer's
allowed-IPs. -/
theorem walkPeers_one_per_descendant_transitive (V : String → MeshVertex)
    (adj : DagMap) (l : String)
    (hwf : ∀ entry ∈ dagRow adj l, entry.2.target = entry.1) :
    (walkPeers V adj l).length = (dagRow adj l).length ∧
    ∀ entry ∈ dagRow adj l, ∃ peer ∈ walkPeers V adj l,
      peer.id = (V entry.1).id ∧
      peer.publicKey = (V entry.1).publicKey ∧
      peer.endpoint = (V entry.1).publicEndpoint ∧
      (∀ a, (V entry.1).privateIPv4 = some a → a ∈ peer.allowedIPs) ∧
      (∀ a, (V entry.1).privateIPv6 = some a → a ∈ peer.allowedIPs) ∧
      ∀ t ∈ dagRow adj entry.1,
        dagRowHasKey (dagRow adj l) t.1 = false → t.1 ≠ l →
        (∀ a, (V t.1).privateIPv4 = some a → a ∈ peer.allowedIPs) ∧
        (∀ a, (V t.1).privateIPv6 = some a → a ∈ peer.allowedIPs) := by
  constructor
  · simp [walkPeers]
  · intro entry hent
    refine ⟨buildPeer V adj (dagRow adj l) l entry,
      List.mem_map_of_mem _ hent, rfl, rfl, rfl, ?_, ?_, ?_⟩
    · intro a ha
      show a ∈ (buildPeer V adj (dagRow adj l) l entry).allowedIPs
      simp only [buildPeer]
      apply mem_condFold2
      left
      simp [validList, ha]
    · intro a ha
      show a ∈ (buildPeer V adj (dagRow adj l) l entry).allowedIPs
      simp only [buildPeer]
      apply mem_condFold2
      left
      simp [validList, ha]
    · intro t ht hkey hne
      have ht' : t ∈ dagRow adj entry.2.target := by
        rw [hwf entry hent]
        exact ht
      constructor
      · intro a ha
        show a ∈ (buildPeer V adj (dagRow adj l) l entry).allowedIPs
        simp only [buildPeer]
        apply mem_condFold2
        right
        refine ⟨t, ht', ?_, Or.inl ?_⟩
        · simp [hkey, hne]
        · simp [validList, ha]
      · intro a ha
        show a ∈ (buildPeer V adj (dagRow adj l) l entry).allowedIPs
        simp only [buildPeer]
        apply mem_condFold2
        right
        refine ⟨t, ht', ?_, Or.inr ?_⟩
        · simp [hkey, hne]
        · simp [validList, ha]

/-- Witness for C1 on the concrete line `a → b → c`: the walk from `a`
produces the peer for `b`, and `c`'s private IPv4 appears in `b`'s
allowed-IPs. -/
theorem walkPeers_one_per_descendant_transitive_witness :
    (∀ entry ∈ dagRow Examples.cxDag "a", entry.2.target = entry.1) ∧
    ((walkPeers Examples.cxVertex Examples.cxDag "a").length
        = (dagRow Examples.cxDag "a").length ∧
      ∀ entry ∈ dagRow Examples.cxDag "a",
        ∃ peer ∈ walkPeers Examples.cxVertex Examples.cxDag "a",
          peer.id = (Examples.cxVertex entry.1).id ∧
          peer.publicKey = (Examples.cxVertex entry.1).publicKey ∧
          peer.endpoint = (Examples.cxVertex entry.1).publicEndpoint ∧
          (∀ a, (Examples.cxVertex entry.1).privateIPv4 = some a →
            a ∈ peer.allowedIPs) ∧
          (∀ a, (Examples.cxVertex entry.1).privateIPv6 = some a →
            a ∈ peer.allowedIPs) ∧
          ∀ t ∈ dagRow Examples.cxDag entry.1,
            dagRowHasKey (dagRow Examples.cxDag "a") t.1 = false → t.1 ≠ "a" →
            (∀ a, (Examples.cxVertex t.1).privateIPv4 = some a →
              a ∈ peer.allowedIPs) ∧
            (∀ a, (Examples.cxVertex t.1).privateIPv6 = some a →
              a ∈ peer.allowedIPs)) :=
  ⟨by decide,
   walkPeers_one_per_descendant_transitive Examples.cxVertex Examples.cxDag "a"
     (by decide)⟩

end MeshStore

namespace Networking

/-- `List.any` only depends on the pointwise values of its predicate. -/
theorem any_congrH {α : Type} (p q : α → Bool) :
    ∀ (l : List α), (∀ x ∈ l, p x = q x) → l.any p = l.any q := by
  intro l
  induction l with
  | nil => intro _; rfl
  | cons a l ih =>
    intro h
    rw [List.any_cons, List.any_cons, h a (List.mem_cons_self a l),
      ih (fun x hx => h x (List.mem_cons_of_mem a hx))]

/-- Updating a row in place never changes the key set. -/
theorem mapHasKey_updateRow (m : AdjacencyMap) (k : String) (f : Row → Row)
    (y : String) : mapHasKey (updateRow m k f) y = mapHasKey m y := by
  unfold mapHasKey updateRow
  rw [List.any_map]
  apply any_congrH
  intro kv _
  simp only [Function.comp_apply]
  split <;> rfl

/-- Setting a row adds exactly the written key to the key set. -/
theorem mapHasKey_setRow (m : AdjacencyMap) (k : String) (r : Row)
    (y : String) :
    mapHasKey (setRow m k r) y = (mapHasKey m y || decide (k = y)) := by
  unfold setRow
  by_cases hm : mapHasKey m k
  · rw [if_pos hm]
    have hsame : mapHasKey (m.map (fun kv => if kv.1 = k then (k, r) else kv)) y
        = mapHasKey m y := by
      unfold mapHasKey
      rw [List.any_map]
      apply any_congrH
      intro kv _
      simp only [Function.comp_apply]
      split
      · next h => simp [h]
      · rfl
    rw [hsame]
    by_cases hky : k = y
    · subst hky
      unfold mapHasKey at hm
      unfold mapHasKey
      rw [hm]
      simp
    · simp [hky]
  · rw [if_neg hm]
    unfold mapHasKey
    rw [List.any_append]
    simp [List.any_cons]

/-- Keys present in the filtered map stay present through the first
filtering pass: deletions only touch entries inside the observer row,
and assignments only add keys. -/
theorem pass1_keys_mono (env : FilterEnv) (tn : MeshNode) :
    ∀ (ks : List String) (st st' : Pass1State),
      pass1 env tn ks st = .ok st' →
      ∀ y, mapHasKey st.filtered y = true → mapHasKey st'.filtered y = true := by
  intro ks
  induction ks with
  | nil =>
    intro st st' h y hy
    rw [pass1] at h
    cases h
    exact hy
  | cons k rest ih =>
    intro st st' h y hy
    rw [pass1] at h
    by_cases hk : k = tn.id
    · rw [if_pos hk] at h
      exact ih st st' h y hy
    · rw [if_neg hk] at h
      cases hres : env.resolve k with
      | none => rw [hres] at h; cases h
      | some node =>
        simp only [hres] at h
        by_cases hallow : env.allow tn node = true
        · rw [if_pos hallow] at h
          simp only [bind, Except.bind] at h
          cases hRA : routesAllowed env tn node.id (GetRoutesByNode env.routes node.id) with
          | error e => rw [hRA] at h; cases h
          | ok b =>
            rw [hRA] at h
            cases b with
            | true =>
              refine ih (assignEmpty st tn.id node.id) st' h y ?_
              simp only [assignEmpty]
              rw [mapHasKey_setRow, hy]
              rfl
            | false =>
              refine ih (eraseObs st tn.id node.id) st' h y ?_
              simp only [eraseObs]
              rw [mapHasKey_updateRow]
              exact hy
        · rw [if_neg hallow] at h
          refine ih (eraseObs st tn.id node.id) st' h y ?_
          simp only [eraseObs]
          rw [mapHasKey_updateRow]
          exact hy

/-- The second filtering pass returns a map with exactly the keys of its
input, in order. -/
theorem pass2_keys (env : FilterEnv) (tn : MeshNode) (fm : AdjacencyMap)
    (al : Bool) :
    ∀ (m m' : AdjacencyMap), pass2 env tn fm al m = .ok m' →
      m'.map (fun kv => kv.1) = m.map (fun kv => kv.1) := by
  intro m
  induction m with
  | nil =>
    intro m' h
    rw [pass2] at h
    cases h
    rfl
  | cons hd rest ih =>
    intro m' h
    obtain ⟨k, row⟩ := hd
    rw [pass2] at h
    cases hLk : lookupRow? fm k with
    | none =>
      rw [hLk] at h
      simp only [bind, Except.bind] at h
      cases hT : pass2 env tn fm al rest with
      | error e => rw [hT] at h; cases h
      | ok tail =>
        rw [hT] at h
        cases h
        simp only [List.map_cons]
        rw [ih tail hT]
    | some edges =>
      rw [hLk] at h
      simp only [bind, Except.bind] at h
      cases hK : pass2Row env tn edges with
      | error e => rw [hK] at h; cases h
      | ok kept =>
        rw [hK] at h
        cases hT : pass2 env tn fm al rest with
        | error e => rw [hT] at h; cases h
        | ok tail =>
          rw [hT] at h
          cases h
          simp only [List.map_cons]
          rw [ih tail hT]

/-- `mapHasKey` through the key list. -/
theorem mapHasKey_eq_keys_any (m : AdjacencyMap) (y : String) :
    mapHasKey m y = (m.map (fun kv => kv.1)).any (fun x => x = y) := by
  unfold mapHasKey
  induction m with
  | nil => rfl
  | cons a l ih => rw [List.map_cons, List.any_cons, List.any_cons, ih]

/-- Counterexample to C3 as stated: with an empty ACL list `FilterGraph`
returns (without error) the nil map, which has no row for the
observer. -/
theorem filterGraph_no_observer_row_on_empty_acls :
    FilterGraph { Examples.cxEnv with aclNames := [] } "a" = .ok [] ∧
    mapHasKey ([] : AdjacencyMap) "a" = false :=
  ⟨by decide, rfl⟩

/-- C3 (amended): whenever the stored ACL list is non-empty and
`FilterGraph` returns a map, that map has a row keyed by the observer
node id (with an empty ACL list the nil map is returned instead). -/
theorem filterGraph_observer_row_present (env : FilterEnv) (obsID : String)
    (obsNode : MeshNode) (m : AdjacencyMap)
    (hres : env.resolve obsID = some obsNode)
    (hid : obsNode.id = obsID)
    (hacl : env.aclNames ≠ [])
    (hok : FilterGraph env obsID = .ok m) :
    mapHasKey m obsID = true := by
  unfold FilterGraph at hok
  simp only [hres] at hok
  have hlen : ¬ env.aclNames.length = 0 := by
    intro h0
    exact hacl (List.length_eq_zero.mp h0)
  rw [if_neg hlen] at hok
  by_cases hexp : env.expandOk = true
  · rw [if_pos hexp] at hok
    cases hP : pass1 env obsNode (env.fullMap.map (fun kv => kv.1))
        { filtered := [(obsNode.id, lookupRow env.fullMap obsNode.id)]
          obsRow := lookupRow env.fullMap obsNode.id, aliased := true } with
    | error e =>
      rw [hP] at hok
      cases hok
    | ok st =>
      rw [hP] at hok
      have hkeys := pass2_keys env obsNode
        (if mapHasKey env.fullMap obsNode.id = true then
          setRow env.fullMap obsNode.id st.obsRow
        else env.fullMap) st.aliased st.filtered m hok
      rw [mapHasKey_eq_keys_any, hkeys, ← mapHasKey_eq_keys_any]
      apply pass1_keys_mono env obsNode _ _ _ hP
      show mapHasKey [(obsNode.id, lookupRow env.fullMap obsNode.id)] obsID = true
      simp [mapHasKey, hid]
  · rw [if_neg hexp] at hok
    cases hok

/-- Witness for the amended C3 at the concrete line environment. -/
theorem filterGraph_observer_row_present_witness :
    Examples.cxEnv.resolve "a" = some ⟨"a", "10.0.0.1/32", "fd00::1/112"⟩ ∧
    Examples.cxEnv.aclNames ≠ [] ∧
    FilterGraph Examples.cxEnv "a"
      = .ok [("a", [("b", ⟨"a", "b"⟩)]), ("b", [("a", ⟨"b", "a"⟩)])] ∧
    mapHasKey [("a", [("b", (⟨"a", "b"⟩ : Edge))]),
      ("b", [("a", ⟨"b", "a"⟩)])] "a" = true :=
  ⟨rfl, by decide, by decide,
   filterGraph_observer_row_present Examples.cxEnv "a"
     ⟨"a", "10.0.0.1/32", "fd00::1/112"⟩
     [("a", [("b", ⟨"a", "b"⟩)]), ("b", [("a", ⟨"b", "a"⟩)])]
     rfl rfl (by decide) (by decide)⟩

end Networking

namespace Networking

theorem cidrsAllowed_ok_true (env : FilterEnv) (tn : MeshNode) (dst : String) :
    ∀ (cs : List String), cidrsAllowed env tn dst cs = .ok true →
      ∀ c ∈ cs, ∃ p, env.parseCidr c = some p ∧
        env.accept (routeAction tn dst c p) = true := by
  intro cs
  induction cs with
  | nil => intro _ c hc; cases hc
  | cons c0 rest ih =>
    intro h c hc
    rw [cidrsAllowed] at h
    cases hp : env.parseCidr c0 with
    | none => rw [hp] at h; cases h
    | some p0 =>
      simp only [hp] at h
      by_cases hacc : env.accept (routeAction tn dst c0 p0) = true
      · rw [if_pos hacc] at h
        rcases List.mem_cons.mp hc with rfl | hc'
        · exact ⟨p0, hp, hacc⟩
        · exact ih h c hc'
      · rw [if_neg hacc] at h
        cases h

theorem routesAllowed_ok_true (env : FilterEnv) (tn : MeshNode) (dst : String) :
    ∀ (rs : List Route), routesAllowed env tn dst rs = .ok true →
      ∀ r ∈ rs, cidrsAllowed env tn dst r.destinationCidrs = .ok true := by
  intro rs
  induction rs with
  | nil => intro _ r hr; cases hr
  | cons r0 rest ih =>
    intro h r hr
    rw [routesAllowed] at h
    simp only [bind, Except.bind] at h
    cases hC : cidrsAllowed env tn dst r0.destinationCidrs with
    | error e => rw [hC] at h; cases h
    | ok b =>
      rw [hC] at h
      cases b with
      | true =>
        rcases List.mem_cons.mp hr with rfl | hr'
        · exact hC
        · exact ih h r hr'
      | false => cases h

/-- If some destination CIDR of some route advertised by `X` parses and
is rejected by `Accept`, the route check for `X` can never report
acceptance. -/
theorem routesAllowed_never_true (env : FilterEnv) (tn : MeshNode)
    (X : String) (r : Route) (c : String) (p : ParsedCidr)
    (hr : r ∈ env.routes) (hrn : r.node = X) (hc : c ∈ r.destinationCidrs)
    (hp : env.parseCidr c = some p)
    (hacc : env.accept (routeAction tn X c p) = false) :
    routesAllowed env tn X (GetRoutesByNode env.routes X) ≠ .ok true := by
  intro habs
  have hrin : r ∈ GetRoutesByNode env.routes X := by
    unfold GetRoutesByNode
    rw [List.mem_filter]
    exact ⟨hr, by simp [hrn]⟩
  have hcid := routesAllowed_ok_true env tn X _ habs r hrin
  obtain ⟨p', hp', hacc'⟩ := cidrsAllowed_ok_true env tn X _ hcid c hc
  rw [hp] at hp'
  cases hp'
  rw [hacc] at hacc'
  cases hacc'

theorem rowHasKey_exists (row : Row) (y : String)
    (h : rowHasKey row y = true) : ∃ q ∈ row, q.1 = y := by
  unfold rowHasKey at h
  rw [List.any_eq_true] at h
  obtain ⟨q, hq, hqy⟩ := h
  exact ⟨q, hq, by simpa using hqy⟩

theorem rowHasKey_eraseKey_self (row : Row) (k : String) :
    rowHasKey (eraseKey row k) k = false := by
  rw [Bool.eq_false_iff]
  intro h
  obtain ⟨q, hq, hqk⟩ := rowHasKey_exists _ _ h
  unfold eraseKey at hq
  rw [List.mem_filter] at hq
  have := hq.2
  simp only [decide_eq_true_eq] at this
  exact this hqk

theorem rowHasKey_eraseKey_mono (row : Row) (k y : String)
    (h : rowHasKey row y = false) : rowHasKey (eraseKey row k) y = false := by
  rw [Bool.eq_false_iff]
  intro habs
  obtain ⟨q, hq, hqy⟩ := rowHasKey_exists _ _ habs
  unfold eraseKey at hq
  rw [List.mem_filter] at hq
  rw [Bool.eq_false_iff] at h
  apply h
  unfold rowHasKey
  rw [List.any_eq_true]
  exact ⟨q, hq.1, by simpa using hqy⟩

theorem lookupRow?_mem (m : AdjacencyMap) (k : String) (row : Row)
    (h : lookupRow? m k = some row) : ∃ pr ∈ m, pr.1 = k ∧ pr.2 = row := by
  unfold lookupRow? at h
  cases hf : m.find? (fun kv => kv.1 = k) with
  | none => rw [hf] at h; cases h
  | some kv =>
    rw [hf] at h
    cases h
    refine ⟨kv, List.mem_of_find?_eq_some hf, ?_, rfl⟩
    have := List.find?_some hf
    simpa using this

theorem mapHasKey_true_mem (m : AdjacencyMap) (y : String)
    (h : mapHasKey m y = true) : y ∈ m.map (fun kv => kv.1) := by
  unfold mapHasKey at h
  rw [List.any_eq_true] at h
  obtain ⟨kv, hkv, hy⟩ := h
  simp only [decide_eq_true_eq] at hy
  rw [List.mem_map]
  exact ⟨kv, hkv, hy⟩

end Networking

namespace Networking

theorem obsfree_updateRow_erase (F : AdjacencyMap) (tnid nid X : String)
    (h : ∀ pr ∈ F, pr.1 = tnid → rowHasKey pr.2 X = false) :
    ∀ pr ∈ updateRow F tnid (fun r => eraseKey r nid),
      pr.1 = tnid → rowHasKey pr.2 X = false := by
  intro pr hpr heq
  unfold updateRow at hpr
  rw [List.mem_map] at hpr
  obtain ⟨kv, hkv, rfl⟩ := hpr
  by_cases hc : kv.1 = tnid
  · simp only [if_pos hc]
    exact rowHasKey_eraseKey_mono _ _ _ (h kv hkv hc)
  · simp only [if_neg hc] at heq ⊢
    exact absurd heq hc

theorem obsfree_updateRow_erase_self (F : AdjacencyMap) (tnid X : String) :
    ∀ pr ∈ updateRow F tnid (fun r => eraseKey r X),
      pr.1 = tnid → rowHasKey pr.2 X = false := by
  intro pr hpr heq
  unfold updateRow at hpr
  rw [List.mem_map] at hpr
  obtain ⟨kv, hkv, rfl⟩ := hpr
  by_cases hc : kv.1 = tnid
  · simp only [if_pos hc]
    exact rowHasKey_eraseKey_self _ _
  · simp only [if_neg hc] at heq ⊢
    exact absurd heq hc

theorem obsfree_setRow_empty (F : AdjacencyMap) (tnid nid X : String)
    (h : ∀ pr ∈ F, pr.1 = tnid → rowHasKey pr.2 X = false) :
    ∀ pr ∈ setRow F nid [], pr.1 = tnid → rowHasKey pr.2 X = false := by
  intro pr hpr heq
  unfold setRow at hpr
  by_cases hm : mapHasKey F nid = true
  · rw [if_pos hm] at hpr
    rw [List.mem_map] at hpr
    obtain ⟨kv, hkv, rfl⟩ := hpr
    by_cases hc : kv.1 = nid
    · simp only [if_pos hc]
      rfl
    · simp only [if_neg hc] at heq ⊢
      exact h kv hkv heq
  · rw [if_neg hm] at hpr
    rcases List.mem_append.mp hpr with hin | hone
    · exact h pr hin heq
    · rcases List.mem_singleton.mp hone with rfl
      rfl

theorem nonobs_empty_updateRow (F : AdjacencyMap) (tnid nid : String)
    (h : ∀ pr ∈ F, pr.1 ≠ tnid → pr.2 = []) :
    ∀ pr ∈ updateRow F tnid (fun r => eraseKey r nid),
      pr.1 ≠ tnid → pr.2 = [] := by
  intro pr hpr hne
  unfold updateRow at hpr
  rw [List.mem_map] at hpr
  obtain ⟨kv, hkv, rfl⟩ := hpr
  by_cases hc : kv.1 = tnid
  · simp only [if_pos hc] at hne ⊢
    exact absurd hc hne
  · simp only [if_neg hc] at hne ⊢
    exact h kv hkv hne

theorem nonobs_empty_setRow (F : AdjacencyMap) (tnid nid : String)
    (h : ∀ pr ∈ F, pr.1 ≠ tnid → pr.2 = []) :
    ∀ pr ∈ setRow F nid [], pr.1 ≠ tnid → pr.2 = [] := by
  intro pr hpr hne
  unfold setRow at hpr
  by_cases hm : mapHasKey F nid = true
  · rw [if_pos hm] at hpr
    rw [List.mem_map] at hpr
    obtain ⟨kv, hkv, rfl⟩ := hpr
    by_cases hc : kv.1 = nid
    · simp only [if_pos hc]
    · simp only [if_neg hc] at hne ⊢
      exact h kv hkv hne
  · rw [if_neg hm] at hpr
    rcases List.mem_append.mp hpr with hin | hone
    · exact h pr hin hne
    · rcases List.mem_singleton.mp hone with rfl
      rfl

/-- Pass 1 keeps every non-observer row of the filtered map empty
(non-observer rows are only ever created as fresh empty maps). -/
theorem pass1_nonobs_rows_empty (env : FilterEnv) (tn : MeshNode) :
    ∀ (ks : List String) (st st' : Pass1State),
      pass1 env tn ks st = .ok st' →
      (∀ pr ∈ st.filtered, pr.1 ≠ tn.id → pr.2 = []) →
      ∀ pr ∈ st'.filtered, pr.1 ≠ tn.id → pr.2 = [] := by
  intro ks
  induction ks with
  | nil =>
    intro st st' h hinv
    rw [pass1] at h
    cases h
    exact hinv
  | cons k rest ih =>
    intro st st' h hinv
    rw [pass1] at h
    by_cases hk : k = tn.id
    · rw [if_pos hk] at h
      exact ih st st' h hinv
    · rw [if_neg hk] at h
      cases hres : env.resolve k with
      | none => rw [hres] at h; cases h
      | some node =>
        simp only [hres] at h
        by_cases hallow : env.allow tn node = true
        · rw [if_pos hallow] at h
          cases hRA : routesAllowed env tn node.id (GetRoutesByNode env.routes node.id) with
          | error e => rw [hRA] at h; cases h
          | ok b =>
            rw [hRA] at h
            cases b with
            | true =>
              refine ih (assignEmpty st tn.id node.id) st' h ?_
              exact nonobs_empty_setRow st.filtered tn.id node.id hinv
            | false =>
              refine ih (eraseObs st tn.id node.id) st' h ?_
              exact nonobs_empty_updateRow st.filtered tn.id node.id hinv
        · rw [if_neg hallow] at h
          refine ih (eraseObs st tn.id node.id) st' h ?_
          exact nonobs_empty_updateRow st.filtered tn.id node.id hinv

end Networking

namespace Networking

/-- Through pass 1 the shared observer row only ever loses entries. -/
theorem pass1_obsRow_mono (env : FilterEnv) (tn : MeshNode) (X : String) :
    ∀ (ks : List String) (st st' : Pass1State),
      pass1 env tn ks st = .ok st' →
      rowHasKey st.obsRow X = false → rowHasKey st'.obsRow X = false := by
  intro ks
  induction ks with
  | nil =>
    intro st st' h hf
    rw [pass1] at h
    cases h
    exact hf
  | cons k rest ih =>
    intro st st' h hf
    rw [pass1] at h
    by_cases hk : k = tn.id
    · rw [if_pos hk] at h
      exact ih st st' h hf
    · rw [if_neg hk] at h
      cases hres : env.resolve k with
      | none => rw [hres] at h; cases h
      | some node =>
        simp only [hres] at h
        have herase : rowHasKey (eraseObs st tn.id node.id).obsRow X = false := by
          simp only [eraseObs]
          by_cases hal : st.aliased = true
          · rw [if_pos hal]
            exact rowHasKey_eraseKey_mono _ _ _ hf
          · rw [if_neg hal]
            exact hf
        by_cases hallow : env.allow tn node = true
        · rw [if_pos hallow] at h
          cases hRA : routesAllowed env tn node.id (GetRoutesByNode env.routes node.id) with
          | error e => rw [hRA] at h; cases h
          | ok b =>
            rw [hRA] at h
            cases b with
            | true => exact ih (assignEmpty st tn.id node.id) st' h hf
            | false => exact ih (eraseObs st tn.id node.id) st' h herase
        · rw [if_neg hallow] at h
          exact ih (eraseObs st tn.id node.id) st' h herase

/-- Pass 1 with a consistent resolver: once the node `X` is among the
keys still to process (or already scrubbed from the observer row), the
final state has `X` nowhere in the observer row, the aliasing with the
full map's row intact, and every observer-keyed row of the filtered map
free of `X`.  Needs that the route check for `X` cannot succeed. -/
theorem pass1_drops_node (env : FilterEnv) (tn : MeshNode) (X : String)
    (hnotok : routesAllowed env tn X (GetRoutesByNode env.routes X) ≠ .ok true)
    (hres : ∀ k n, env.resolve k = some n → n.id = k)
    (hX : X ≠ tn.id) :
    ∀ (ks : List String) (st st' : Pass1State),
      pass1 env tn ks st = .ok st' →
      st.aliased = true →
      (X ∈ ks ∨
        (rowHasKey st.obsRow X = false ∧
          ∀ pr ∈ st.filtered, pr.1 = tn.id → rowHasKey pr.2 X = false)) →
      st'.aliased = true ∧
      rowHasKey st'.obsRow X = false ∧
      ∀ pr ∈ st'.filtered, pr.1 = tn.id → rowHasKey pr.2 X = false := by
  intro ks
  induction ks with
  | nil =>
    intro st st' h hal hd
    rw [pass1] at h
    cases h
    rcases hd with hin | ⟨h1, h2⟩
    · cases hin
    · exact ⟨hal, h1, h2⟩
  | cons k rest ih =>
    intro st st' h hal hd
    rw [pass1] at h
    by_cases hk : k = tn.id
    · rw [if_pos hk] at h
      apply ih st st' h hal
      rcases hd with hin | hP
      · rcases List.mem_cons.mp hin with rfl | hin'
        · exact absurd hk hX
        · exact Or.inl hin'
      · exact Or.inr hP
    · rw [if_neg hk] at h
      cases hresk : env.resolve k with
      | none => rw [hresk] at h; cases h
      | some node =>
        simp only [hresk] at h
        have hnid : node.id = k := hres k node hresk
        have halE : (eraseObs st tn.id node.id).aliased = true := hal
        have halA : (assignEmpty st tn.id node.id).aliased = true := by
          simp only [assignEmpty]
          rw [hal]
          simp [hnid, hk]
        have hPerase : ∀ hP : rowHasKey st.obsRow X = false ∧
            (∀ pr ∈ st.filtered, pr.1 = tn.id → rowHasKey pr.2 X = false),
            rowHasKey (eraseObs st tn.id node.id).obsRow X = false ∧
            ∀ pr ∈ (eraseObs st tn.id node.id).filtered, pr.1 = tn.id →
              rowHasKey pr.2 X = false := by
          intro hP
          constructor
          · simp only [eraseObs]
            rw [if_pos hal]
            exact rowHasKey_eraseKey_mono _ _ _ hP.1
          · exact obsfree_updateRow_erase st.filtered tn.id node.id X hP.2
        have hPassign : ∀ hP : rowHasKey st.obsRow X = false ∧
            (∀ pr ∈ st.filtered, pr.1 = tn.id → rowHasKey pr.2 X = false),
            rowHasKey (assignEmpty st tn.id node.id).obsRow X = false ∧
            ∀ pr ∈ (assignEmpty st tn.id node.id).filtered, pr.1 = tn.id →
              rowHasKey pr.2 X = false := by
          intro hP
          exact ⟨hP.1, obsfree_setRow_empty st.filtered tn.id node.id X hP.2⟩
        have hXerase : k = X →
            rowHasKey (eraseObs st tn.id node.id).obsRow X = false ∧
            ∀ pr ∈ (eraseObs st tn.id node.id).filtered, pr.1 = tn.id →
              rowHasKey pr.2 X = false := by
          intro hkX
          subst hkX
          rw [hnid]
          constructor
          · simp only [eraseObs]
            rw [if_pos hal]
            exact rowHasKey_eraseKey_self _ _
          · exact obsfree_updateRow_erase_self st.filtered tn.id k
        by_cases hallow : env.allow tn node = true
        · rw [if_pos hallow] at h
          cases hRA : routesAllowed env tn node.id (GetRoutesByNode env.routes node.id) with
          | error e => rw [hRA] at h; cases h
          | ok b =>
            rw [hRA] at h
            cases b with
            | true =>
              have hkX : ¬ k = X := by
                intro hkX
                apply hnotok
                rw [hnid, hkX] at hRA
                exact hRA
              apply ih (assignEmpty st tn.id node.id) st' h halA
              rcases hd with hin | hP
              · rcases List.mem_cons.mp hin with rfl | hin'
                · exact absurd rfl hkX
                · exact Or.inl hin'
              · exact Or.inr (hPassign hP)
            | false =>
              apply ih (eraseObs st tn.id node.id) st' h halE
              rcases hd with hin | hP
              · rcases List.mem_cons.mp hin with rfl | hin'
                · exact Or.inr (hXerase rfl)
                · exact Or.inl hin'
              · exact Or.inr (hPerase hP)
        · rw [if_neg hallow] at h
          apply ih (eraseObs st tn.id node.id) st' h halE
          rcases hd with hin | hP
          · rcases List.mem_cons.mp hin with rfl | hin'
            · exact Or.inr (hXerase rfl)
            · exact Or.inl hin'
          · exact Or.inr (hPerase hP)

/-- Every key of the filtered map after pass 1 was either already there
or belongs to a processed node that passed both the communication and
the route checks. -/
theorem pass1_keys_from (env : FilterEnv) (tn : MeshNode) :
    ∀ (ks : List String) (st st' : Pass1State),
      pass1 env tn ks st = .ok st' →
      ∀ y, mapHasKey st'.filtered y = true →
        mapHasKey st.filtered y = true ∨
        ∃ k ∈ ks, ¬ k = tn.id ∧ ∃ n, env.resolve k = some n ∧ n.id = y ∧
          env.allow tn n = true ∧
          routesAllowed env tn n.id (GetRoutesByNode env.routes n.id) = .ok true := by
  intro ks
  induction ks with
  | nil =>
    intro st st' h y hy
    rw [pass1] at h
    cases h
    exact Or.inl hy
  | cons k rest ih =>
    intro st st' h y hy
    rw [pass1] at h
    by_cases hk : k = tn.id
    · rw [if_pos hk] at h
      rcases ih st st' h y hy with hin | ⟨k', hk', hx⟩
      · exact Or.inl hin
      · exact Or.inr ⟨k', List.mem_cons_of_mem k hk', hx⟩
    · rw [if_neg hk] at h
      cases hresk : env.resolve k with
      | none => rw [hresk] at h; cases h
      | some node =>
        simp only [hresk] at h
        by_cases hallow : env.allow tn node = true
        · rw [if_pos hallow] at h
          cases hRA : routesAllowed env tn node.id (GetRoutesByNode env.routes node.id) with
          | error e => rw [hRA] at h; cases h
          | ok b =>
            rw [hRA] at h
            cases b with
            | true =>
              rcases ih (assignEmpty st tn.id node.id) st' h y hy with hin | ⟨k', hk', hx⟩
              · simp only [assignEmpty] at hin
                rw [mapHasKey_setRow] at hin
                rcases Bool.or_eq_true_iff.mp hin with hin' | hyid
                · exact Or.inl hin'
                · refine Or.inr ⟨k, List.mem_cons_self k rest, hk, node, hresk, ?_, hallow, hRA⟩
                  simpa using hyid
              · exact Or.inr ⟨k', List.mem_cons_of_mem k hk', hx⟩
            | false =>
              rcases ih (eraseObs st tn.id node.id) st' h y hy with hin | ⟨k', hk', hx⟩
              · simp only [eraseObs] at hin
                rw [mapHasKey_updateRow] at hin
                exact Or.inl hin
              · exact Or.inr ⟨k', List.mem_cons_of_mem k hk', hx⟩
        · rw [if_neg hallow] at h
          rcases ih (eraseObs st tn.id node.id) st' h y hy with hin | ⟨k', hk', hx⟩
          · simp only [eraseObs] at hin
            rw [mapHasKey_updateRow] at hin
            exact Or.inl hin
          · exact Or.inr ⟨k', List.mem_cons_of_mem k hk', hx⟩

end Networking

namespace Networking

/-- The pass-2 peer check for `X` cannot succeed when `X`'s route check
cannot. -/
theorem peerAllowed_never_true (env : FilterEnv) (tn : MeshNode) (X : String)
    (hnotok : routesAllowed env tn X (GetRoutesByNode env.routes X) ≠ .ok true) :
    peerAllowed env tn X ≠ .ok true := by
  intro habs
  unfold peerAllowed at habs
  cases hr : env.resolve X with
  | none => rw [hr] at habs; cases habs
  | some peer =>
    simp only [hr] at habs
    by_cases hallow : env.allow tn peer = true
    · rw [if_pos hallow] at habs
      exact hnotok habs
    · rw [if_neg hallow] at habs
      cases habs

/-- Pass 2 never keeps an entry for a peer whose checks cannot
succeed. -/
theorem pass2Row_no_key (env : FilterEnv) (tn : MeshNode) (X : String)
    (hX : X ≠ tn.id) (hpa : peerAllowed env tn X ≠ .ok true) :
    ∀ (edges : List (String × Edge)) (kept : Row),
      pass2Row env tn edges = .ok kept → rowHasKey kept X = false := by
  intro edges
  induction edges with
  | nil =>
    intro kept h
    rw [pass2Row] at h
    cases h
    rfl
  | cons pe rest ih =>
    intro kept h
    obtain ⟨p, e⟩ := pe
    rw [pass2Row] at h
    by_cases hp : p = tn.id
    · rw [if_pos hp] at h
      simp only [bind, Except.bind] at h
      cases hT : pass2Row env tn rest with
      | error err => rw [hT] at h; cases h
      | ok kept' =>
        rw [hT] at h
        cases h
        unfold rowHasKey
        rw [List.any_cons, Bool.or_eq_false_iff]
        refine ⟨?_, ih _ hT⟩
        simp only [decide_eq_false_iff_not]
        intro hh
        exact hX (hh ▸ hp)
    · rw [if_neg hp] at h
      simp only [bind, Except.bind] at h
      cases hPA : peerAllowed env tn p with
      | error err => rw [hPA] at h; cases h
      | ok okb =>
        rw [hPA] at h
        cases hT : pass2Row env tn rest with
        | error err => rw [hT] at h; cases h
        | ok kept' =>
          rw [hT] at h
          cases okb with
          | true =>
            cases h
            unfold rowHasKey
            rw [List.any_cons, Bool.or_eq_false_iff]
            refine ⟨?_, ih _ hT⟩
            simp only [decide_eq_false_iff_not]
            intro hh
            apply hpa
            rw [← hh]
            exact hPA
          | false =>
            cases h
            exact ih _ hT

/-- Pass 2 output rows keep `X` out whenever the input rows do and the
peer check for `X` cannot succeed. -/
theorem pass2_rows_no_key (env : FilterEnv) (tn : MeshNode)
    (fm : AdjacencyMap) (al : Bool) (X : String)
    (hX : X ≠ tn.id) (hpa : peerAllowed env tn X ≠ .ok true) :
    ∀ (m m' : AdjacencyMap), pass2 env tn fm al m = .ok m' →
      (∀ pr ∈ m, rowHasKey pr.2 X = false) →
      ∀ pr ∈ m', rowHasKey pr.2 X = false := by
  intro m
  induction m with
  | nil =>
    intro m' h _
    rw [pass2] at h
    cases h
    intro pr hpr
    cases hpr
  | cons hd rest ih =>
    intro m' h hin
    obtain ⟨k, row⟩ := hd
    rw [pass2] at h
    cases hLk : lookupRow? fm k with
    | none =>
      rw [hLk] at h
      simp only [bind, Except.bind] at h
      cases hT : pass2 env tn fm al rest with
      | error e => rw [hT] at h; cases h
      | ok tail =>
        rw [hT] at h
        cases h
        intro pr hpr
        rcases List.mem_cons.mp hpr with rfl | hpr'
        · exact hin (k, row) (List.mem_cons_self _ _)
        · exact ih tail hT
            (fun q hq => hin q (List.mem_cons_of_mem _ hq)) pr hpr'
    | some edges =>
      rw [hLk] at h
      simp only [bind, Except.bind] at h
      cases hK : pass2Row env tn edges with
      | error e => rw [hK] at h; cases h
      | ok kept =>
        rw [hK] at h
        cases hT : pass2 env tn fm al rest with
        | error e => rw [hT] at h; cases h
        | ok tail =>
          rw [hT] at h
          cases h
          intro pr hpr
          rcases List.mem_cons.mp hpr with rfl | hpr'
          · by_cases hcond : (al && k = tn.id) = true
            · rw [if_pos hcond]
              exact hin (k, row) (List.mem_cons_self _ _)
            · rw [if_neg hcond]
              exact pass2Row_no_key env tn X hX hpa edges kept hK
          · exact ih tail hT
              (fun q hq => hin q (List.mem_cons_of_mem _ hq)) pr hpr'

end Networking

namespace Networking

/-- C2: if any destination CIDR of any route advertised by node `X`
parses and fails the `Accept` check for the observer, then `FilterGraph`
(when it succeeds) removes `X` entirely: `X` is not a key of the
filtered map and appears in no row of it, regardless of whether
`AllowNodesToCommunicate` would permit direct traffic. -/
theorem filterGraph_drops_node_on_rejected_route (env : FilterEnv)
    (obsID X : String) (obsNode : MeshNode) (r : Route) (c : String)
    (p : ParsedCidr) (m : AdjacencyMap)
    (hres : ∀ k n, env.resolve k = some n → n.id = k)
    (hobs : env.resolve obsID = some obsNode)
    (hwf : ∀ pr ∈ env.fullMap, ∀ q ∈ pr.2, mapHasKey env.fullMap q.1 = true)
    (hXobs : X ≠ obsID)
    (hr : r ∈ env.routes) (hrn : r.node = X) (hc : c ∈ r.destinationCidrs)
    (hp : env.parseCidr c = some p)
    (hacc : env.accept (routeAction obsNode X c p) = false)
    (hok : FilterGraph env obsID = .ok m) :
    mapHasKey m X = false ∧ ∀ pr ∈ m, rowHasKey pr.2 X = false := by
  have hobsid : obsNode.id = obsID := hres obsID obsNode hobs
  have hXtn : X ≠ obsNode.id := by rw [hobsid]; exact hXobs
  have hnotok := routesAllowed_never_true env obsNode X r c p hr hrn hc hp hacc
  unfold FilterGraph at hok
  simp only [hobs] at hok
  by_cases hlen : env.aclNames.length = 0
  · rw [if_pos hlen] at hok
    cases hok
    exact ⟨rfl, fun pr hpr => absurd hpr (List.not_mem_nil pr)⟩
  · rw [if_neg hlen] at hok
    by_cases hexp : env.expandOk = true
    · rw [if_pos hexp] at hok
      cases hP : pass1 env obsNode (env.fullMap.map (fun kv => kv.1))
          { filtered := [(obsNode.id, lookupRow env.fullMap obsNode.id)]
            obsRow := lookupRow env.fullMap obsNode.id, aliased := true } with
      | error e => rw [hP] at hok; cases hok
      | ok st =>
        rw [hP] at hok
        have hinit : rowHasKey (lookupRow env.fullMap obsNode.id) X = false ∨
            X ∈ env.fullMap.map (fun kv => kv.1) := by
          cases hb : rowHasKey (lookupRow env.fullMap obsNode.id) X with
          | false => exact Or.inl rfl
          | true =>
            right
            obtain ⟨q, hq, hqX⟩ := rowHasKey_exists _ _ hb
            unfold lookupRow at hq
            cases hLk : lookupRow? env.fullMap obsNode.id with
            | none =>
              rw [hLk] at hq
              exact absurd hq (List.not_mem_nil q)
            | some row =>
              rw [hLk] at hq
              obtain ⟨pr, hpr, _, hprrow⟩ := lookupRow?_mem _ _ _ hLk
              have hq' : q ∈ pr.2 := by rw [hprrow]; exact hq
              have := hwf pr hpr q hq'
              rw [hqX] at this
              exact mapHasKey_true_mem _ _ this
        have hdisj : X ∈ env.fullMap.map (fun kv => kv.1) ∨
            (rowHasKey (Pass1State.mk
                [(obsNode.id, lookupRow env.fullMap obsNode.id)]
                (lookupRow env.fullMap obsNode.id) true).obsRow X = false ∧
              ∀ pr ∈ (Pass1State.mk
                [(obsNode.id, lookupRow env.fullMap obsNode.id)]
                (lookupRow env.fullMap obsNode.id) true).filtered,
                pr.1 = obsNode.id → rowHasKey pr.2 X = false) := by
          rcases hinit with hfree | hin
          · right
            refine ⟨hfree, ?_⟩
            intro pr hpr _
            rcases List.mem_singleton.mp hpr with rfl
            exact hfree
          · exact Or.inl hin
        obtain ⟨hal', hobsrow', hfobs'⟩ :=
          pass1_drops_node env obsNode X hnotok hres hXtn
            (env.fullMap.map (fun kv => kv.1)) _ st hP rfl hdisj
        have hrows : ∀ pr ∈ st.filtered, rowHasKey pr.2 X = false := by
          intro pr hpr
          by_cases hid : pr.1 = obsNode.id
          · exact hfobs' pr hpr hid
          · have hempty := pass1_nonobs_rows_empty env obsNode
              (env.fullMap.map (fun kv => kv.1)) _ st hP
              (by
                intro q hq hne
                rcases List.mem_singleton.mp hq with rfl
                exact absurd rfl hne) pr hpr hid
            rw [hempty]
            rfl
        have hkeyfree : mapHasKey st.filtered X = false := by
          cases hb : mapHasKey st.filtered X with
          | false => rfl
          | true =>
            exfalso
            rcases pass1_keys_from env obsNode
                (env.fullMap.map (fun kv => kv.1)) _ st hP X hb with
              hin | ⟨k, hk, hkne, n, hrk, hnid, hallow, hRA⟩
            · unfold mapHasKey at hin
              rw [List.any_cons] at hin
              simp only [List.any_nil, Bool.or_false, decide_eq_true_eq] at hin
              exact hXtn hin.symm
            · have hkX : k = X := by rw [← hres k n hrk]; exact hnid
              rw [hnid] at hRA
              exact hnotok hRA
        have hkeys := pass2_keys env obsNode
          (if mapHasKey env.fullMap obsNode.id = true then
            setRow env.fullMap obsNode.id st.obsRow
          else env.fullMap) st.aliased st.filtered m hok
        constructor
        · rw [mapHasKey_eq_keys_any, hkeys, ← mapHasKey_eq_keys_any]
          exact hkeyfree
        · exact pass2_rows_no_key env obsNode
            (if mapHasKey env.fullMap obsNode.id = true then
              setRow env.fullMap obsNode.id st.obsRow
            else env.fullMap) st.aliased X hXtn
            (peerAllowed_never_true env obsNode X hnotok)
            st.filtered m hok hrows
    · rw [if_neg hexp] at hok
      cases hok

end Networking

namespace Networking

/-- Witness for C2 on the concrete line: node `c` advertises
`192.168.10.0/24`, the ACLs reject that destination, and `c` vanishes
from the filtered map even though `allow` permits everything. -/
theorem filterGraph_drops_node_on_rejected_route_witness :
    (∀ k n, Examples.cxEnv.resolve k = some n → n.id = k) ∧
    Examples.cxEnv.resolve "a" = some ⟨"a", "10.0.0.1/32", "fd00::1/112"⟩ ∧
    Examples.cxEnv.accept
      (routeAction ⟨"a", "10.0.0.1/32", "fd00::1/112"⟩ "c" "192.168.10.0/24"
        ⟨true⟩) = false ∧
    FilterGraph Examples.cxEnv "a"
      = .ok [("a", [("b", ⟨"a", "b"⟩)]), ("b", [("a", ⟨"b", "a"⟩)])] ∧
    (mapHasKey [("a", [("b", (⟨"a", "b"⟩ : Edge))]),
        ("b", [("a", ⟨"b", "a"⟩)])] "c" = false ∧
      ∀ pr ∈ [("a", [("b", (⟨"a", "b"⟩ : Edge))]), ("b", [("a", ⟨"b", "a"⟩)])],
        rowHasKey pr.2 "c" = false) := by
  have hres : ∀ k n, Examples.cxEnv.resolve k = some n → n.id = k := by
    intro k n h
    have h' : Examples.cxResolve k = some n := h
    unfold Examples.cxResolve at h'
    split_ifs at h' with h1 h2 h3
    · cases h'; exact h1.symm
    · cases h'; exact h2.symm
    · cases h'; exact h3.symm
  refine ⟨hres, by decide, by decide, by decide, ?_⟩
  exact filterGraph_drops_node_on_rejected_route Examples.cxEnv "a" "c"
    ⟨"a", "10.0.0.1/32", "fd00::1/112"⟩ ⟨"r1", "c", ["192.168.10.0/24"]⟩
    "192.168.10.0/24" ⟨true⟩
    [("a", [("b", ⟨"a", "b"⟩)]), ("b", [("a", ⟨"b", "a"⟩)])]
    hres (by decide) (by decide) (by decide) (by decide) rfl (by decide)
    (by decide) (by decide) (by decide)

end Networking

namespace NodeJoin

theorem map_ite_id {α : Type} (key : String) (f : α → String) (v : α) :
    ∀ (l : List α), (∀ q ∈ l, f q = key → q = v) →
      l.map (fun q => if f q = key then v else q) = l := by
  intro l
  induction l with
  | nil => intro _; rfl
  | cons a rest ih =>
    intro h
    rw [List.map_cons, ih (fun q hq => h q (List.mem_cons_of_mem a hq))]
    by_cases ha : f a = key
    · rw [if_pos ha, h a (List.mem_cons_self a rest) ha]
    · rw [if_neg ha]

theorem find?_map_ite {α : Type} (key : String) (f : α → String)
    (upd : α → α) (hupd : ∀ q, f q = key → f (upd q) = key) :
    ∀ (l : List α),
      (l.map (fun q => if f q = key then upd q else q)).find?
          (fun q => f q = key)
        = (l.find? (fun q => f q = key)).map upd := by
  intro l
  induction l with
  | nil => rfl
  | cons a rest ih =>
    rw [List.map_cons]
    by_cases ha : f a = key
    · rw [if_pos ha]
      rw [List.find?_cons_of_pos _ (by simpa using hupd a ha),
        List.find?_cons_of_pos _ (by simpa using ha)]
      rfl
    · rw [if_neg ha]
      rw [List.find?_cons_of_neg _ (by simpa using ha),
        List.find?_cons_of_neg _ (by simpa using ha)]
      exact ih

theorem all_matching_map_const {α : Type} (key : String) (f : α → String)
    (v : α) (l : List α) :
    ∀ q ∈ l.map (fun q => if f q = key then v else q), f q = key → q = v := by
  intro q hq hkey
  rw [List.mem_map] at hq
  obtain ⟨q0, hq0, rfl⟩ := hq
  by_cases h : f q0 = key
  · rw [if_pos h]
  · rw [if_neg h] at hkey ⊢
    exact absurd hkey h

theorem all_matching_map_upd {α : Type} (key : String) (f : α → String)
    (upd : α → α) (v : α) (l : List α)
    (hall : ∀ q ∈ l, f q = key → q = v) :
    ∀ q ∈ l.map (fun q => if f q = key then upd q else q),
      f q = key → q = upd v := by
  intro q hq hkey
  rw [List.mem_map] at hq
  obtain ⟨q0, hq0, rfl⟩ := hq
  by_cases h : f q0 = key
  · rw [if_pos h, hall q0 hq0 h]
  · rw [if_neg h] at hkey ⊢
    exact absurd hkey h

theorem map_ids_ite_upd (l : List PeerNode) (key : String)
    (upd : PeerNode → PeerNode) (hupd : ∀ q, q.id = key → (upd q).id = q.id) :
    (l.map (fun q => if q.id = key then upd q else q)).map (fun q => q.id)
      = l.map (fun q => q.id) := by
  rw [List.map_map]
  apply List.map_congr_left
  intro q _
  simp only [Function.comp_apply]
  by_cases h : q.id = key
  · rw [if_pos h]
    exact hupd q h
  · rw [if_neg h]

theorem find?_append_none {α : Type} (p : α → Bool) :
    ∀ (l1 l2 : List α), l1.find? p = none →
      (l1 ++ l2).find? p = l2.find? p := by
  intro l1
  induction l1 with
  | nil => intro l2 _; rfl
  | cons a rest ih =>
    intro l2 h
    rw [List.find?_eq_none] at h
    have hpa : p a = false := by
      cases hpa : p a
      · rfl
      · exact absurd hpa (h a (List.mem_cons_self a rest))
    rw [List.cons_append, List.find?_cons_of_neg _ (by simp [hpa])]
    apply ih
    rw [List.find?_eq_none]
    intro x hx
    exact h x (List.mem_cons_of_mem a hx)

theorem any_map_ite_of_any (l : List (String × String)) (key : String)
    (v : String × String) (hv : v.1 = key)
    (h : l.any (fun q => q.1 = key) = true) :
    (l.map (fun q => if q.1 = key then v else q)).any
      (fun q => q.1 = key) = true := by
  rw [List.any_eq_true] at h ⊢
  obtain ⟨q0, hq0, hq0k⟩ := h
  refine ⟨if q0.1 = key then v else q0, List.mem_map_of_mem _ hq0, ?_⟩
  simp only [decide_eq_true_eq] at hq0k ⊢
  rw [if_pos hq0k]
  exact hv

end NodeJoin

namespace NodeJoin

/-- A successful ULA step only (possibly) fills the cached prefix. -/
theorem joinUla_spec (P : Parsers) (st stU : ServerState)
    (h : joinUla P st = .ok stU) :
    stU.isLeader = st.isLeader ∧ stU.peers = st.peers ∧
    stU.leases = st.leases ∧ stU.raftMembers = st.raftMembers ∧
    stU.nextASN = st.nextASN ∧ stU.nextLeaseNum = st.nextLeaseNum ∧
    stU.freshIPv6 = st.freshIPv6 ∧ stU.ulaCidr.isSome = true := by
  unfold joinUla at h
  cases hu : st.ulaCidr with
  | some u =>
    rw [hu] at h
    cases h
    exact ⟨rfl, rfl, rfl, rfl, rfl, rfl, rfl, by rw [hu]; rfl⟩
  | none =>
    simp only [hu] at h
    cases hd : st.dbUla with
    | error e => rw [hd] at h; cases h
    | ok raw =>
      simp only [hd] at h
      cases hp : P.parseCidr raw with
      | none => rw [hp] at h; cases h
      | some u =>
        simp only [hp] at h
        cases h
        exact ⟨rfl, rfl, rfl, rfl, rfl, rfl, rfl, rfl⟩

/-- With the ULA prefix already cached the ULA step is the identity. -/
theorem joinUla_cached (P : Parsers) (st : ServerState)
    (h : st.ulaCidr.isSome = true) : joinUla P st = .ok st := by
  obtain ⟨u, hu⟩ := Option.isSome_iff_exists.mp h
  unfold joinUla
  rw [hu]

end NodeJoin

namespace NodeJoin

/-- `AssignASN` bumps the counter, stamps it on every record with the
node's id, and touches nothing else. -/
theorem assignASN_spec (st : ServerState) (req : JoinRequest)
    (peer : PeerNode)
    (hget : peersGet st req.id = some peer)
    (hall : ∀ q ∈ st.peers, q.id = req.id → q = peer) :
    peersGet (assignASN st req.id).2 req.id
        = some { peer with asn := st.nextASN + 1 } ∧
    (∀ q ∈ (assignASN st req.id).2.peers, q.id = req.id →
      q = { peer with asn := st.nextASN + 1 }) ∧
    (assignASN st req.id).2.peers.map (fun q => q.id)
        = st.peers.map (fun q => q.id) ∧
    (assignASN st req.id).1 = st.nextASN + 1 ∧
    (assignASN st req.id).2.leases = st.leases ∧
    (assignASN st req.id).2.raftMembers = st.raftMembers ∧
    (assignASN st req.id).2.isLeader = st.isLeader ∧
    (assignASN st req.id).2.ulaCidr = st.ulaCidr ∧
    (assignASN st req.id).2.nextLeaseNum = st.nextLeaseNum := by
  refine ⟨?_, ?_, ?_, rfl, rfl, rfl, rfl, rfl, rfl⟩
  · show ((st.peers.map (fun q => if q.id = req.id then
        { q with asn := st.nextASN + 1 } else q)).find?
        (fun p => p.id = req.id)) = _
    rw [find?_map_ite req.id (fun q => q.id)
      (fun q => { q with asn := st.nextASN + 1 }) (fun q h => h) st.peers]
    show (peersGet st req.id).map _ = _
    rw [hget]
    rfl
  · exact all_matching_map_upd req.id (fun q => q.id)
      (fun q => { q with asn := st.nextASN + 1 }) peer st.peers hall
  · exact map_ids_ite_upd st.peers req.id
      (fun q => { q with asn := st.nextASN + 1 }) (fun q _ => rfl)

/-- `ipam.Acquire` leaves every non-lease field alone and afterwards the
lease table maps the node id to the returned address. -/
theorem ipamAcquire_spec (st : ServerState) (id : String) :
    (ipamAcquire st id).2.leases.find? (fun l => l.1 = id)
        = some (id, (ipamAcquire st id).1) ∧
    (ipamAcquire st id).2.peers = st.peers ∧
    (ipamAcquire st id).2.raftMembers = st.raftMembers ∧
    (ipamAcquire st id).2.isLeader = st.isLeader ∧
    (ipamAcquire st id).2.ulaCidr = st.ulaCidr := by
  unfold ipamAcquire
  cases hF : st.leases.find? (fun l => l.1 = id) with
  | some l =>
    have hl1 : l.1 = id := by simpa using List.find?_some hF
    refine ⟨?_, rfl, rfl, rfl, rfl⟩
    show st.leases.find? (fun l => l.1 = id) = some (id, l.2)
    rw [hF, ← hl1]
  | none =>
    refine ⟨?_, rfl, rfl, rfl, rfl⟩
    show (st.leases ++ [(id, leaseAddr st.nextLeaseNum)]).find?
        (fun l => l.1 = id) = _
    rw [find?_append_none _ st.leases _ hF,
      List.find?_cons_of_pos _ (by simp)]

/-- `AddNonVoter` makes the id map to exactly the given address in the
raft membership and touches nothing else. -/
theorem addNonVoter_spec (st : ServerState) (id addr : String) :
    (addNonVoter st id addr).raftMembers.any (fun q => q.1 = id) = true ∧
    (∀ q ∈ (addNonVoter st id addr).raftMembers, q.1 = id →
      q = (id, addr)) ∧
    (addNonVoter st id addr).peers = st.peers ∧
    (addNonVoter st id addr).leases = st.leases ∧
    (addNonVoter st id addr).isLeader = st.isLeader ∧
    (addNonVoter st id addr).ulaCidr = st.ulaCidr := by
  unfold addNonVoter
  by_cases hm : st.raftMembers.any (fun q => q.1 = id) = true
  · rw [if_pos hm]
    refine ⟨?_, ?_, rfl, rfl, rfl, rfl⟩
    · exact any_map_ite_of_any st.raftMembers id (id, addr) rfl hm
    · exact all_matching_map_const id (fun q => q.1) (id, addr) st.raftMembers
  · rw [if_neg hm]
    refine ⟨?_, ?_, rfl, rfl, rfl, rfl⟩
    · rw [List.any_append]
      simp
    · intro q hq hqk
      rcases List.mem_append.mp hq with hin | hone
      · exfalso
        apply hm
        rw [List.any_eq_true]
        exact ⟨q, hin, by simpa using hqk⟩
      · simpa using List.mem_singleton.mp hone

end NodeJoin

namespace NodeJoin

/-- Full characterization of `joinFinish` when the persisted record is
the unique record under the request id: the final state holds one
(possibly ASN-stamped) version of it, the response carries its
addresses, the lease table binds the id to the returned IPv4 exactly
when one was requested, and the raft membership binds the id to the
derived raft address. -/
theorem joinFinish_spec (st : ServerState) (req : JoinRequest)
    (peer : PeerNode) (resp : JoinResponse) (stF : ServerState)
    (hget : peersGet st req.id = some peer)
    (hall : ∀ q ∈ st.peers, q.id = req.id → q = peer)
    (hJF : joinFinish st req peer = (.ok resp, stF)) :
    stF.isLeader = st.isLeader ∧
    stF.ulaCidr = st.ulaCidr ∧
    stF.peers.map (fun q => q.id) = st.peers.map (fun q => q.id) ∧
    ∃ p', peersGet stF req.id = some p' ∧
      p'.id = peer.id ∧
      p'.publicKey = peer.publicKey ∧
      p'.grpcPort = peer.grpcPort ∧
      p'.raftPort = peer.raftPort ∧
      p'.endpoint = peer.endpoint ∧
      p'.allowedIPs = peer.allowedIPs ∧
      p'.availableZones = peer.availableZones ∧
      p'.networkIPv6 = peer.networkIPv6 ∧
      (req.assignAsn = true → p'.asn ≠ 0) ∧
      (∀ q ∈ stF.peers, q.id = req.id → q = p') ∧
      resp.networkIpv6 = peer.networkIPv6 ∧
      resp.asn = p'.asn ∧
      (req.assignIpv4 = true →
        stF.leases.find? (fun l => l.1 = req.id)
          = some (req.id, resp.addressIpv4)) ∧
      (req.assignIpv4 = false →
        resp.addressIpv4 = "" ∧ stF.leases = st.leases) ∧
      stF.raftMembers.any (fun q => q.1 = req.id) = true ∧
      (∀ q ∈ stF.raftMembers, q.1 = req.id →
        q = (req.id, raftAddrFor req p' resp.addressIpv4)) := by
  have hstage1 : ∃ (p1 : PeerNode) (st1 : ServerState),
      (if req.assignAsn && peer.asn = 0 then assignASN st req.id
        else (peer.asn, st)) = (p1.asn, st1) ∧
      peersGet st1 req.id = some p1 ∧
      (∀ q ∈ st1.peers, q.id = req.id → q = p1) ∧
      st1.peers.map (fun q => q.id) = st.peers.map (fun q => q.id) ∧
      st1.leases = st.leases ∧ st1.raftMembers = st.raftMembers ∧
      st1.isLeader = st.isLeader ∧ st1.ulaCidr = st.ulaCidr ∧
      p1.publicKey = peer.publicKey ∧ p1.grpcPort = peer.grpcPort ∧
      p1.raftPort = peer.raftPort ∧ p1.endpoint = peer.endpoint ∧
      p1.allowedIPs = peer.allowedIPs ∧
      p1.availableZones = peer.availableZones ∧
      p1.networkIPv6 = peer.networkIPv6 ∧ p1.id = peer.id ∧
      (req.assignAsn = true → p1.asn ≠ 0) := by
    by_cases hA : (req.assignAsn && decide (peer.asn = 0)) = true
    · obtain ⟨g1, g2, g3, gA1, gle, gra, gld, gul, gnl⟩ :=
        assignASN_spec st req peer hget hall
      refine ⟨{ peer with asn := st.nextASN + 1 }, (assignASN st req.id).2,
        ?_, g1, g2, g3, gle, gra, gld, gul, rfl, rfl, rfl, rfl, rfl, rfl,
        rfl, rfl, fun _ => by simp⟩
      rw [if_pos hA]
      refine Prod.ext ?_ rfl
      rw [gA1]
    · rw [if_neg hA]
      have hasn : req.assignAsn = true → peer.asn ≠ 0 := by
        intro ha h0
        apply hA
        rw [ha, h0]
        simp
      exact ⟨peer, st, rfl, hget, hall, rfl, rfl, rfl, rfl, rfl, rfl, rfl,
        rfl, rfl, rfl, rfl, rfl, rfl, hasn⟩
  obtain ⟨p1, st1, hEq1, hget1, hall1, hids1, hlea1, hraf1, hlead1, hula1,
    hpk1, hgp1, hrp1, hep1, hai1, haz1, hv61, hid1, hasn1⟩ := hstage1
  unfold joinFinish at hJF
  rw [hEq1] at hJF
  simp only [] at hJF
  by_cases hI : req.assignIpv4 = true
  · rw [if_pos hI] at hJF
    obtain ⟨f1, f2, f3, f4, f5⟩ := ipamAcquire_spec st1 req.id
    obtain ⟨a1, a2, a3, a4p, a5, a6⟩ := addNonVoter_spec
      (ipamAcquire st1 req.id).2 req.id
      (if req.assignIpv4 && !req.preferRaftIpv6 then
        joinHostPort (addrOfCidr ((some (ipamAcquire st1 req.id).1).getD ""))
          peer.raftPort
      else joinHostPort (addrOfCidr peer.networkIPv6) peer.raftPort)
    rw [Prod.mk.injEq] at hJF
    obtain ⟨hre, hstf⟩ := hJF
    cases hre
    subst hstf
    refine ⟨by rw [a5, f4, hlead1], by rw [a6, f5, hula1],
      by rw [a3, f2, hids1], p1, ?_, hid1, hpk1, hgp1, hrp1, hep1, hai1,
      haz1, hv61, hasn1, ?_, rfl, rfl, ?_, ?_, ?_, ?_⟩
    · show ((addNonVoter _ _ _).peers.find? (fun p => p.id = req.id)) = _
      rw [a3, f2]
      exact hget1
    · intro q hq
      rw [a3, f2] at hq
      exact hall1 q hq
    · intro _
      show (addNonVoter _ _ _).leases.find? (fun l => l.1 = req.id) = _
      rw [a4p]
      exact f1
    · intro hF
      rw [hI] at hF
      cases hF
    · exact a1
    · intro q hq hqk
      have := a2 q hq hqk
      rw [this]
      show _ = (req.id, raftAddrFor req p1 _)
      unfold raftAddrFor
      rw [hrp1, hv61]
  · rw [if_neg hI] at hJF
    have hIf : req.assignIpv4 = false := by
      cases hIv : req.assignIpv4
      · rfl
      · exact absurd hIv hI
    obtain ⟨a1, a2, a3, a4p, a5, a6⟩ := addNonVoter_spec st1 req.id
      (if req.assignIpv4 && !req.preferRaftIpv6 then
        joinHostPort (addrOfCidr ((none : Option String).getD ""))
          peer.raftPort
      else joinHostPort (addrOfCidr peer.networkIPv6) peer.raftPort)
    rw [Prod.mk.injEq] at hJF
    obtain ⟨hre, hstf⟩ := hJF
    cases hre
    subst hstf
    refine ⟨by rw [a5, hlead1], by rw [a6, hula1],
      by rw [a3, hids1], p1, ?_, hid1, hpk1, hgp1, hrp1, hep1, hai1,
      haz1, hv61, hasn1, ?_, rfl, rfl, ?_, ?_, ?_, ?_⟩
    · show ((addNonVoter _ _ _).peers.find? (fun p => p.id = req.id)) = _
      rw [a3]
      exact hget1
    · intro q hq
      rw [a3] at hq
      exact hall1 q hq
    · intro hT
      exact absurd hT hI
    · intro _
      exact ⟨rfl, by rw [a4p, hlea1]⟩
    · exact a1
    · intro q hq hqk
      have := a2 q hq hqk
      rw [this]
      show _ = (req.id, raftAddrFor req p1 _)
      unfold raftAddrFor
      rw [hrp1, hv61]

end NodeJoin


namespace NodeJoin

/-- Characterization of a successful `Join`: validation passed, the
stored record under the request id is unique and carries the request's
mutable fields, an ASN when one was requested, the lease table and raft
membership bind the id consistently with the response, and — when the id
already existed — no record was added and its IPv6 was kept. -/
theorem join_ok_spec (P : Parsers) (st : ServerState) (req : JoinRequest)
    (resp : JoinResponse) (st1 : ServerState)
    (hok : Join P st req = (.ok resp, st1)) :
    st1.isLeader = st.isLeader ∧
    st1.ulaCidr.isSome = true ∧
    req.id ≠ "" ∧
    (req.endpoint ≠ "" → (P.parseAddrPort req.endpoint).isSome = true) ∧
    ∃ p', peersGet st1 req.id = some p' ∧
      p'.id = req.id ∧
      P.parseKey req.publicKey = some p'.publicKey ∧
      p'.grpcPort = req.grpcPort ∧
      p'.raftPort = req.raftPort ∧
      p'.endpoint = (if req.endpoint = "" then none
        else P.parseAddrPort req.endpoint) ∧
      p'.allowedIPs = req.allowedIps ∧
      p'.availableZones = req.availableZones ∧
      (req.assignAsn = true → p'.asn ≠ 0) ∧
      (∀ q ∈ st1.peers, q.id = req.id → q = p') ∧
      resp.networkIpv6 = p'.networkIPv6 ∧
      resp.asn = p'.asn ∧
      (req.assignIpv4 = true →
        st1.leases.find? (fun l => l.1 = req.id)
          = some (req.id, resp.addressIpv4)) ∧
      (req.assignIpv4 = false → resp.addressIpv4 = "") ∧
      st1.raftMembers.any (fun q => q.1 = req.id) = true ∧
      (∀ q ∈ st1.raftMembers, q.1 = req.id →
        q = (req.id, raftAddrFor req p' resp.addressIpv4)) ∧
      (∀ p0, peersGet st req.id = some p0 →
        st1.peers.map (fun q => q.id) = st.peers.map (fun q => q.id) ∧
        p'.networkIPv6 = p0.networkIPv6) := by
  unfold Join at hok
  cases hl : st.isLeader with
  | false =>
    rw [hl] at hok
    exact absurd (congrArg Prod.fst hok) (by simp)
  | true =>
    rw [hl] at hok
    cases hU : joinUla P st with
    | error e =>
      rw [hU] at hok
      exact absurd (congrArg Prod.fst hok) (by simp)
    | ok stU =>
      simp only [hU] at hok
      obtain ⟨u1, u2, u3, u4, u5, u6, u7, u8⟩ := joinUla_spec P st stU hU
      by_cases hid : req.id = ""
      · rw [if_pos hid] at hok
        exact absurd (congrArg Prod.fst hok) (by simp)
      · rw [if_neg hid] at hok
        cases hk : P.parseKey req.publicKey with
        | none =>
          rw [hk] at hok
          exact absurd (congrArg Prod.fst hok) (by simp)
        | some key =>
          simp only [hk] at hok
          cases hep : (if req.endpoint = "" then some none
              else (P.parseAddrPort req.endpoint).map some :
              Option (Option String)) with
          | none =>
            rw [hep] at hok
            exact absurd (congrArg Prod.fst hok) (by simp)
          | some endpoint =>
            simp only [hep] at hok
            have hepSome : req.endpoint ≠ "" →
                (P.parseAddrPort req.endpoint).isSome = true := by
              intro hne
              rw [if_neg hne] at hep
              cases hpp : P.parseAddrPort req.endpoint with
              | none => rw [hpp] at hep; cases hep
              | some a => rfl
            have hepVal : endpoint = (if req.endpoint = "" then none
                else P.parseAddrPort req.endpoint) := by
              by_cases hne : req.endpoint = ""
              · rw [if_pos hne] at hep ⊢
                cases hep
                rfl
              · rw [if_neg hne] at hep ⊢
                cases hpp : P.parseAddrPort req.endpoint with
                | none => rw [hpp] at hep; cases hep
                | some a =>
                  rw [hpp] at hep
                  cases hep
                  rfl
            cases hg : peersGet stU req.id with
            | some peer0 =>
              simp only [hg] at hok
              have hp0id : peer0.id = req.id := by
                simpa using List.find?_some hg
              set merged : PeerNode :=
                { peer0 with
                    publicKey := key
                    grpcPort := req.grpcPort
                    raftPort := req.raftPort
                    endpoint := endpoint
                    allowedIPs := req.allowedIps
                    availableZones := req.availableZones } with hmdef
              have hmid : merged.id = req.id := hp0id
              have hg' : stU.peers.find? (fun p => p.id = req.id)
                  = some peer0 := hg
              have hget2 : peersGet (peersUpdate stU merged) req.id
                  = some merged := by
                show (stU.peers.map
                  (fun q => if q.id = merged.id then merged else q)).find?
                  (fun p => p.id = req.id) = some merged
                rw [hmid]
                rw [find?_map_ite req.id (fun q => q.id) (fun _ => merged)
                  (fun q _ => hmid) stU.peers]
                rw [hg']
                rfl
              have hall2 : ∀ q ∈ (peersUpdate stU merged).peers,
                  q.id = req.id → q = merged := by
                intro q hq hqk
                have hq' : q ∈ stU.peers.map
                    (fun q => if q.id = merged.id then merged else q) := hq
                rw [hmid] at hq'
                exact all_matching_map_const req.id (fun q => q.id) merged
                  stU.peers q hq' hqk
              obtain ⟨j1, j2, j3, p', jget, jid, jpk, jgp, jrp, jep, jai,
                jaz, jv6, jasn, jall, jrn, jra, jlf, jlnone, jany, jraft⟩ :=
                joinFinish_spec _ req _ resp st1 hget2 hall2 hok
              refine ⟨?_, ?_, hid, hepSome,
                p', jget, ?_, ?_, ?_, ?_, ?_, ?_,
                ?_, jasn, jall, ?_, jra, jlf, ?_, jany,
                jraft, ?_⟩
              · rw [j1]
                show stU.isLeader = true
                rw [u1, hl]
              · rw [j2]
                show stU.ulaCidr.isSome = true
                exact u8
              · rw [jid]; exact hmid
              · rw [jpk]
              · rw [jgp]
              · rw [jrp]
              · rw [jep]; exact hepVal
              · rw [jai]
              · rw [jaz]
              · rw [jv6]
                exact jrn
              · intro hF4
                exact (jlnone hF4).1
              · intro p0 hp0
                have hsame : stU.peers.find? (fun p => p.id = req.id)
                    = st.peers.find? (fun p => p.id = req.id) := by
                  rw [u2]
                have hp0' : st.peers.find? (fun p => p.id = req.id)
                    = some p0 := hp0
                rw [← hsame, hg'] at hp0'
                cases hp0'
                constructor
                · rw [j3]
                  show (stU.peers.map
                    (fun q => if q.id = merged.id then merged else q)).map
                    (fun q => q.id) = _
                  rw [hmid]
                  rw [map_ids_ite_upd stU.peers req.id (fun _ => merged)
                    (fun q h => by rw [hmid, h]), u2]
                · rw [jv6]
            | none =>
              simp only [hg] at hok
              simp only [peersCreate] at hok
              set newp : PeerNode :=
                { id := req.id
                  publicKey := key
                  grpcPort := req.grpcPort
                  raftPort := req.raftPort
                  endpoint := endpoint
                  allowedIPs := req.allowedIps
                  availableZones := req.availableZones
                  networkIPv6 := stU.freshIPv6
                  privateIPv4 := ""
                  asn := 0 } with hndef
              have hg' : stU.peers.find? (fun p => p.id = req.id)
                  = none := hg
              have hget2 : peersGet
                  { stU with peers := stU.peers ++ [newp] } req.id
                  = some newp := by
                show (stU.peers ++ [newp]).find? (fun p => p.id = req.id)
                  = some newp
                rw [find?_append_none _ stU.peers _ hg',
                  List.find?_cons_of_pos _ (by simp [hndef])]
              have hall2 : ∀ q ∈ ({ stU with peers := stU.peers ++ [newp] }
                  : ServerState).peers, q.id = req.id → q = newp := by
                intro q hq hqk
                rcases List.mem_append.mp hq with hin | hone
                · exfalso
                  rw [List.find?_eq_none] at hg'
                  exact hg' q hin (by simpa using hqk)
                · exact List.mem_singleton.mp hone
              obtain ⟨j1, j2, j3, p', jget, jid, jpk, jgp, jrp, jep, jai,
                jaz, jv6, jasn, jall, jrn, jra, jlf, jlnone, jany, jraft⟩ :=
                joinFinish_spec _ req _ resp st1 hget2 hall2 hok
              refine ⟨?_, ?_, hid, hepSome,
                p', jget, ?_, ?_, ?_, ?_, ?_, ?_,
                ?_, jasn, jall, ?_, jra, jlf, ?_, jany,
                jraft, ?_⟩
              · rw [j1]
                show stU.isLeader = true
                rw [u1, hl]
              · rw [j2]
                show stU.ulaCidr.isSome = true
                exact u8
              · rw [jid]
              · rw [jpk]
              · rw [jgp]
              · rw [jrp]
              · rw [jep]; exact hepVal
              · rw [jai]
              · rw [jaz]
              · rw [jv6]
                exact jrn
              · intro hF4
                exact (jlnone hF4).1
              · intro p0 hp0
                exfalso
                have hp0' : st.peers.find? (fun p => p.id = req.id)
                    = some p0 := hp0
                rw [← u2, hg'] at hp0'
                cases hp0'

end NodeJoin

namespace NodeJoin

/-- C5: a `Join` for an existing id merges the request's mutable fields
into the stored record in place — same id list, same IPv6 — and a second
`Join` with the same request is idempotent: it succeeds, leaves the
whole state (record, leases, raft membership, counters) exactly as the
first join left it, and returns the same `AddressIpv4`. -/
theorem join_update_in_place_and_idempotent (P : Parsers)
    (st : ServerState) (req : JoinRequest) (resp1 : JoinResponse)
    (st1 : ServerState) (hok : Join P st req = (.ok resp1, st1)) :
    (∀ p, peersGet st req.id = some p →
      st1.peers.map (fun q => q.id) = st.peers.map (fun q => q.id) ∧
      ∃ p', peersGet st1 req.id = some p' ∧
        p'.networkIPv6 = p.networkIPv6 ∧
        P.parseKey req.publicKey = some p'.publicKey ∧
        p'.grpcPort = req.grpcPort ∧
        p'.raftPort = req.raftPort ∧
        p'.endpoint = (if req.endpoint = "" then none
          else P.parseAddrPort req.endpoint) ∧
        p'.allowedIPs = req.allowedIps ∧
        p'.availableZones = req.availableZones) ∧
    ∃ resp2, Join P st1 req = (.ok resp2, st1) ∧
      resp2.addressIpv4 = resp1.addressIpv4 := by
  obtain ⟨h1, h2, hid, hepS, p', hget, hpid, hpk, hgp, hrp, hep, hai, haz,
    hasn, hall, hrn, hra, hlf, hlnone, hany, hraft, hA⟩ :=
    join_ok_spec P st req resp1 st1 hok
  have hl : st.isLeader = true := by
    cases hsl : st.isLeader with
    | true => rfl
    | false =>
      unfold Join at hok
      rw [hsl] at hok
      exact absurd (congrArg Prod.fst hok) (by simp)
  have hl1 : st1.isLeader = true := by rw [h1, hl]
  constructor
  · intro p hp
    obtain ⟨hids, hv6⟩ := hA p hp
    exact ⟨hids, p', hget, hv6, hpk, hgp, hrp, hep, hai, haz⟩
  · obtain ⟨resp2, stF2, hJF2⟩ :
        ∃ r s, joinFinish (peersUpdate st1 p') req p' = (.ok r, s) :=
      ⟨_, _, rfl⟩
    have hS : (if req.endpoint = "" then some none
        else (P.parseAddrPort req.endpoint).map some :
        Option (Option String))
        = some (if req.endpoint = "" then none
          else P.parseAddrPort req.endpoint) := by
      by_cases hne : req.endpoint = ""
      · rw [if_pos hne, if_pos hne]
      · rw [if_neg hne, if_neg hne]
        obtain ⟨a, ha⟩ := Option.isSome_iff_exists.mp (hepS hne)
        rw [ha]
        rfl
    have hJoin2 : Join P st1 req = (.ok resp2, stF2) := by
      unfold Join
      simp only [hl1, Bool.not_true, Bool.false_eq_true, if_false,
        joinUla_cached P st1 h2, if_neg hid, hpk, hS, hget, ← hep,
        ← hgp, ← hrp, ← hai, ← haz]
      exact hJF2
    have hupd_id : peersUpdate st1 p' = st1 := by
      show ({ st1 with peers := st1.peers.map (fun q => if q.id = p'.id then p' else q) } : ServerState) = st1
      rw [map_ite_id p'.id (fun q => q.id) p' st1.peers
        (fun q hq hqk => hall q hq (by rw [← hpid]; exact hqk))]
    rw [hupd_id] at hJF2
    have hcondAsn : ¬ ((req.assignAsn && decide (p'.asn = 0)) = true) := by
      cases ha : req.assignAsn with
      | false => rw [Bool.false_and]; exact Bool.false_ne_true
      | true =>
        rw [Bool.true_and]
        rw [decide_eq_false_iff_not.mpr (hasn ha)]
        exact Bool.false_ne_true
    unfold joinFinish at hJF2
    rw [if_neg hcondAsn] at hJF2
    simp only [] at hJF2
    cases hI : req.assignIpv4 with
    | true =>
      have hAcq : ipamAcquire st1 req.id = (resp1.addressIpv4, st1) := by
        unfold ipamAcquire
        rw [hlf hI]
      rw [if_pos hI, hAcq] at hJF2
      simp only [] at hJF2
      have hNV : addNonVoter st1 req.id
          (raftAddrFor req p' resp1.addressIpv4) = st1 := by
        unfold addNonVoter
        rw [if_pos hany]
        show ({ st1 with raftMembers := st1.raftMembers.map (fun q => if q.1 = req.id then (req.id, raftAddrFor req p' resp1.addressIpv4) else q) } : ServerState) = st1
        rw [map_ite_id req.id (fun q => q.1)
          (req.id, raftAddrFor req p' resp1.addressIpv4) st1.raftMembers
          (fun q hq hqk => hraft q hq hqk)]
      have hRA : (if req.assignIpv4 && !req.preferRaftIpv6 then
          joinHostPort (addrOfCidr ((some resp1.addressIpv4).getD ""))
            p'.raftPort
        else joinHostPort (addrOfCidr p'.networkIPv6) p'.raftPort)
          = raftAddrFor req p' resp1.addressIpv4 := by
        unfold raftAddrFor
        rfl
      rw [hRA, hNV] at hJF2
      rw [Prod.mk.injEq] at hJF2
      obtain ⟨hre, hstf⟩ := hJF2
      have hre' := Except.ok.inj hre
      refine ⟨resp2, ?_, ?_⟩
      · rw [hJoin2, ← hstf]
      · rw [← hre']
        rfl
    | false =>
      rw [if_neg (by rw [hI]; exact Bool.false_ne_true)] at hJF2
      simp only [] at hJF2
      have hA4 := hlnone hI
      have hNV : addNonVoter st1 req.id
          (raftAddrFor req p' resp1.addressIpv4) = st1 := by
        unfold addNonVoter
        rw [if_pos hany]
        show ({ st1 with raftMembers := st1.raftMembers.map (fun q => if q.1 = req.id then (req.id, raftAddrFor req p' resp1.addressIpv4) else q) } : ServerState) = st1
        rw [map_ite_id req.id (fun q => q.1)
          (req.id, raftAddrFor req p' resp1.addressIpv4) st1.raftMembers
          (fun q hq hqk => hraft q hq hqk)]
      have hRA : (if req.assignIpv4 && !req.preferRaftIpv6 then
          joinHostPort (addrOfCidr ((none : Option String).getD ""))
            p'.raftPort
        else joinHostPort (addrOfCidr p'.networkIPv6) p'.raftPort)
          = raftAddrFor req p' resp1.addressIpv4 := by
        unfold raftAddrFor
        rw [hI, Bool.false_and]
        rfl
      rw [hRA, hNV] at hJF2
      rw [Prod.mk.injEq] at hJF2
      obtain ⟨hre, hstf⟩ := hJF2
      have hre' := Except.ok.inj hre
      refine ⟨resp2, ?_, ?_⟩
      · rw [hJoin2, ← hstf]
      · rw [← hre', hA4]
        rfl

end NodeJoin

namespace NodeJoin

theorem join_update_in_place_and_idempotent_witness :
    NodeJoin.Join Examples.cxParsers Examples.cxState Examples.cxReq =
      (.ok Examples.cxResp1, Examples.cxSt1) ∧
    ∃ resp2, NodeJoin.Join Examples.cxParsers Examples.cxSt1 Examples.cxReq =
      (.ok resp2, Examples.cxSt1) ∧
      resp2.addressIpv4 = Examples.cxResp1.addressIpv4 :=
  ⟨by decide,
    (NodeJoin.join_update_in_place_and_idempotent Examples.cxParsers
      Examples.cxState Examples.cxReq Examples.cxResp1 Examples.cxSt1
      (by decide)).2⟩

end NodeJoin
